import Mathlib

/-!
Verification development for the wagtail-linkchecker crawl engine.

Shallow embedding of:
  - the URL resolution used by `Scan.add_link` (urllib.parse urljoin or urlparse,
    restricted to the split components the engine reads; path parameters are
    folded into the path, which is equivalent for the parameter-free URLs
    the engine handles),
  - `Scan.add_link` / `Scan.add_links` / `Scan.scan_pages` (models.py),
  - the `check_link` task with `link_is_ok` / `link_is_broken` (tasks.py),
    as a fuel-indexed interpreter over an explicit scan state; fuel zero is a
    model artifact never reached in the proofs, which supply sufficient fuel,
  - the `ScanLinkQuerySet` query surface (models.py) and the `stop` view
    transition (views.py).

State carries ghost observation logs (fetchLog, saveLog, finishWrites) that
record which URLs were fetched, which links had their outcome fields written,
and how many times the finish timestamp was assigned.  Database rows are a
list of links; uniqueness of (scan, url) corresponds to no-duplicate urls.
Python exceptions that escape a task are modeled by a Boolean raised flag.
-/

namespace LinkChecker

/-- Checks that the first list is a prefix of the second, character lists. -/
def charsPre : List Char → List Char → Bool
  | [], _ => true
  | _ :: _, [] => false
  | a :: as, b :: bs => a = b && charsPre as bs

/-- Embeds Python str.startswith for plain string prefixes. -/
def strStartsWith (s p : String) : Bool := charsPre p.toList s.toList

/-- Splits a character list at the first occurrence of sep; none when absent. -/
def splitAtChar (sep : Char) : List Char → Option (List Char × List Char)
  | [] => none
  | c :: cs =>
    if c = sep then some ([], cs)
    else
      match splitAtChar sep cs with
      | none => none
      | some (l, r) => some (c :: l, r)

/-- Takes netloc characters up to the first of the delimiters slash, question mark or hash. -/
def takeNetloc : List Char → List Char × List Char
  | [] => ([], [])
  | c :: cs =>
    if c = '/' || c = '?' || c = '#' then ([], c :: cs)
    else
      let (a, b) := takeNetloc cs
      (c :: a, b)

/-- Characters allowed in a URL scheme after the leading letter. -/
def isSchemeChar (c : Char) : Bool := c.isAlphanum || c = '+' || c = '-' || c = '.'

/-- Extracts a scheme as urllib.parse.urlsplit does: the text before the first
colon when it is nonempty, starts with a letter, and uses scheme characters
only; the scheme is lowercased. -/
def splitScheme (cs : List Char) : Option (List Char × List Char) :=
  match splitAtChar ':' cs with
  | none => none
  | some (before, after) =>
    match before with
    | [] => none
    | c0 :: _ =>
      if c0.isAlpha && before.all isSchemeChar then
        some (before.map Char.toLower, after)
      else none

/-- Result of urllib.parse.urlsplit: scheme, netloc, path, query, fragment. -/
structure UrlSplit where
  scheme : String
  netloc : String
  path : String
  query : String
  fragment : String
deriving DecidableEq, Repr

/-- Embeds urllib.parse.urlsplit (allow_fragments true, no default scheme). -/
def urlsplitCore (url : String) : UrlSplit :=
  let cs := url.toList
  let (scheme, rest) :=
    match splitScheme cs with
    | some (sch, r) => (sch, r)
    | none => (([] : List Char), cs)
  let (netloc, rest) :=
    match rest with
    | '/' :: '/' :: r => takeNetloc r
    | _ => (([] : List Char), rest)
  let (rest, fragment) :=
    match splitAtChar '#' rest with
    | some (a, b) => (a, b)
    | none => (rest, ([] : List Char))
  let (path, query) :=
    match splitAtChar '?' rest with
    | some (a, b) => (a, b)
    | none => (rest, ([] : List Char))
  ⟨String.mk scheme, String.mk netloc, String.mk path, String.mk query, String.mk fragment⟩

/-- Schemes treated as relative-capable by urllib.parse (uses_relative). -/
def usesRelative : List String :=
  ["", "ftp", "http", "gopher", "nntp", "imap", "wais", "file", "https", "shttp",
   "mms", "prospero", "rtsp", "rtspu", "sftp", "svn", "svn+ssh", "ws", "wss"]

/-- Schemes that carry a network location in urllib.parse (uses_netloc). -/
def usesNetloc : List String :=
  ["", "ftp", "http", "gopher", "nntp", "telnet", "imap", "wais", "file", "mms",
   "https", "shttp", "snews", "prospero", "rtsp", "rtspu", "rsync", "svn",
   "svn+ssh", "sftp", "nfs", "git", "git+ssh", "ws", "wss", "itms-services"]

/-- Embeds urllib.parse.urlunsplit. -/
def urlunsplit (scheme netloc path query fragment : String) : String :=
  let url := path
  let url :=
    if netloc ≠ "" || strStartsWith url "//" then
      "//" ++ netloc ++ (if url ≠ "" && !(strStartsWith url "/") then "/" ++ url else url)
    else url
  let url := if scheme ≠ "" then scheme ++ ":" ++ url else url
  let url := if query ≠ "" then url ++ "?" ++ query else url
  if fragment ≠ "" then url ++ "#" ++ fragment else url

/-- Splits a string on every slash, Python str.split semantics. -/
def splitSlash : List Char → List (List Char)
  | [] => [[]]
  | c :: cs =>
    if c = '/' then [] :: splitSlash cs
    else
      match splitSlash cs with
      | [] => [[c]]
      | s :: ss => (c :: s) :: ss

/-- Path segments of a string, as Python path.split with a slash separator. -/
def pathSegments (s : String) : List String := (splitSlash s.toList).map String.mk

/-- Drops empty segments strictly between the first and the last segment,
as the urljoin source does with segments[1:-1] = filter(None, segments[1:-1]). -/
def dropEmptyMid : List String → List String
  | [] => []
  | [a] => [a]
  | a :: rest => a :: dropEmptyMidTail rest
where
  dropEmptyMidTail : List String → List String
  | [] => []
  | [a] => [a]
  | a :: rest => if a = "" then dropEmptyMidTail rest else a :: dropEmptyMidTail rest

/-- Resolves dot segments exactly as the urljoin loop does, with accumulator
kept reversed; a pop on the empty accumulator is ignored. -/
def resolveSegs (acc : List String) : List String → List String
  | [] => acc.reverse
  | seg :: rest =>
    if seg = ".." then resolveSegs (acc.drop 1) rest
    else if seg = "." then resolveSegs acc rest
    else resolveSegs (seg :: acc) rest

/-- Joins segments with slashes, Python str.join semantics. -/
def joinSlash (segs : List String) : String := String.intercalate "/" segs

/-- Embeds urllib.parse.urljoin, following the CPython source: early returns
for empty arguments, foreign schemes and netloc-bearing references, then the
segment merge with dot resolution. -/
def urljoin (base url : String) : String :=
  if base = "" then url
  else if url = "" then base
  else
    let b := urlsplitCore base
    let r := urlsplitCore url
    let scheme := if r.scheme = "" then b.scheme else r.scheme
    if scheme ≠ b.scheme ∨ scheme ∉ usesRelative then url
    else
      let netloc := if scheme ∈ usesNetloc then (if r.netloc ≠ "" then r.netloc else b.netloc) else r.netloc
      if scheme ∈ usesNetloc ∧ r.netloc ≠ "" then
        urlunsplit scheme r.netloc r.path r.query r.fragment
      else
        if r.path = "" then
          urlunsplit scheme netloc b.path (if r.query = "" then b.query else r.query) r.fragment
        else
          let baseParts := pathSegments b.path
          let baseParts := if baseParts.getLast? ≠ some "" then baseParts.dropLast else baseParts
          let segments :=
            if strStartsWith r.path "/" then pathSegments r.path
            else dropEmptyMid (baseParts ++ pathSegments r.path)
          let resolved := resolveSegs [] segments
          let resolved := if segments.getLast? = some "." ∨ segments.getLast? = some ".." then resolved ++ [""] else resolved
          let joined := joinSlash resolved
          urlunsplit scheme netloc (if joined = "" then "/" else joined) r.query r.fragment

/-- Reason phrases of the recognized standard codes in http.HTTPStatus. -/
def httpStatusPhrase (code : Int) : Option String :=
  if code = 100 then some "Continue"
  else if code = 101 then some "Switching Protocols"
  else if code = 102 then some "Processing"
  else if code = 103 then some "Early Hints"
  else if code = 200 then some "OK"
  else if code = 201 then some "Created"
  else if code = 202 then some "Accepted"
  else if code = 203 then some "Non-Authoritative Information"
  else if code = 204 then some "No Content"
  else if code = 205 then some "Reset Content"
  else if code = 206 then some "Partial Content"
  else if code = 207 then some "Multi-Status"
  else if code = 208 then some "Already Reported"
  else if code = 226 then some "IM Used"
  else if code = 300 then some "Multiple Choices"
  else if code = 301 then some "Moved Permanently"
  else if code = 302 then some "Found"
  else if code = 303 then some "See Other"
  else if code = 304 then some "Not Modified"
  else if code = 305 then some "Use Proxy"
  else if code = 307 then some "Temporary Redirect"
  else if code = 308 then some "Permanent Redirect"
  else if code = 400 then some "Bad Request"
  else if code = 401 then some "Unauthorized"
  else if code = 402 then some "Payment Required"
  else if code = 403 then some "Forbidden"
  else if code = 404 then some "Not Found"
  else if code = 405 then some "Method Not Allowed"
  else if code = 406 then some "Not Acceptable"
  else if code = 407 then some "Proxy Authentication Required"
  else if code = 408 then some "Request Timeout"
  else if code = 409 then some "Conflict"
  else if code = 410 then some "Gone"
  else if code = 411 then some "Length Required"
  else if code = 412 then some "Precondition Failed"
  else if code = 413 then some "Request Entity Too Large"
  else if code = 414 then some "Request-URI Too Long"
  else if code = 415 then some "Unsupported Media Type"
  else if code = 416 then some "Requested Range Not Satisfiable"
  else if code = 417 then some "Expectation Failed"
  else if code = 418 then some "I\x27m a Teapot"
  else if code = 421 then some "Misdirected Request"
  else if code = 422 then some "Unprocessable Entity"
  else if code = 423 then some "Locked"
  else if code = 424 then some "Failed Dependency"
  else if code = 425 then some "Too Early"
  else if code = 426 then some "Upgrade Required"
  else if code = 428 then some "Precondition Required"
  else if code = 429 then some "Too Many Requests"
  else if code = 431 then some "Request Header Fields Too Large"
  else if code = 451 then some "Unavailable For Legal Reasons"
  else if code = 500 then some "Internal Server Error"
  else if code = 501 then some "Not Implemented"
  else if code = 502 then some "Bad Gateway"
  else if code = 503 then some "Service Unavailable"
  else if code = 504 then some "Gateway Timeout"
  else if code = 505 then some "HTTP Version Not Supported"
  else if code = 506 then some "Variant Also Negotiates"
  else if code = 507 then some "Insufficient Storage"
  else if code = 508 then some "Loop Detected"
  else if code = 510 then some "Not Extended"
  else if code = 511 then some "Network Authentication Required"
  else none

/-- Database row of wagtaillinkchecker.models.ScanLink, restricted to the
fields the engine reads or writes; page is the full URL of the originating
page (none models a null page reference). -/
structure ScanLink where
  url : String
  domainname : String
  follow : Bool
  crawled : Bool
  invalid : Bool
  broken : Bool
  status_code : Option Int
  error_text : Option String
  page : Option String
deriving DecidableEq, Repr

/-- State of one Scan row together with its ScanLink rows and ghost logs:
fetchLog records each URL passed to requests.get, saveLog records each URL
whose link row had its outcome fields written by a check unit, finishWrites
counts assignments to the finish timestamp.  scan_finished is the timestamp
collapsed to its truthiness, which is all the engine reads. -/
structure ScanState where
  scan_finished : Bool
  links : List ScanLink
  fetchLog : List String
  saveLog : List String
  finishWrites : Nat
deriving DecidableEq, Repr

/-- State of a freshly created Scan row. -/
def initScan : ScanState :=
  { scan_finished := false, links := [], fetchLog := [], saveLog := [], finishWrites := 0 }

/-- Embeds ScanLinkQuerySet.valid. -/
def validLinks (links : List ScanLink) : List ScanLink := links.filter (fun l => !l.invalid)

/-- Embeds ScanLinkQuerySet.invalid_links. -/
def invalid_links (links : List ScanLink) : List ScanLink := links.filter (fun l => l.invalid)

/-- Embeds ScanLinkQuerySet.non_scanned_links. -/
def non_scanned_links (links : List ScanLink) : List ScanLink := links.filter (fun l => !l.crawled)

/-- Embeds ScanLinkQuerySet.broken_links: filter(broken=True) with no validity restriction. -/
def broken_links (links : List ScanLink) : List ScanLink := links.filter (fun l => l.broken)

/-- Embeds ScanLinkQuerySet.working_links: valid().filter(broken=False, crawled=True). -/
def working_links (links : List ScanLink) : List ScanLink :=
  (validLinks links).filter (fun l => !l.broken && l.crawled)

/-- Tests whether a ScanLink row with this url exists in the scan,
as self.links.filter(url=link_url).exists(). -/
def registered (s : ScanState) (url : String) : Bool := s.links.any (fun l => l.url = url)

/-- Row produced by self.links.create(url=..., page=..., follow=...); the
custom ScanLink.save fills domainname with the parsed netloc, and the model
fields carry their Django defaults. -/
def mkScanLink (url : String) (page : Option String) (follow : Bool) : ScanLink :=
  { url := url, domainname := (urlsplitCore url).netloc, follow := follow,
    crawled := false, invalid := false, broken := false,
    status_code := none, error_text := none, page := page }

/-- Embeds Scan.add_link.  The error value models the AttributeError raised
by the source line base_url = page.full_url if page else self.scan.root_url:
a Scan instance has no attribute named scan, so the page-less branch raises.
The DataError catch for URLs longer than the 500-character column drops the
registration silently. -/
def add_link (s : ScanState) (url : String) (page : Option String) (follow : Bool) :
    Except Unit (ScanState × Option ScanLink) :=
  if url = "" || strStartsWith url "#" then .ok (s, none)
  else
    match page with
    | none => .error ()
    | some base =>
      let link_url := urljoin base url
      let parsed := urlsplitCore link_url
      if ¬(parsed.scheme = "http" ∨ parsed.scheme = "https") then .ok (s, none)
      else if registered s link_url then .ok (s, none)
      else if 500 < link_url.length then .ok (s, none)
      else
        let link := mkScanLink link_url page follow
        .ok ({ s with links := s.links ++ [link] }, some link)

/-- Embeds Scan.add_links: registers each candidate in order, collecting the
newly created links; an exception raised by add_link aborts the loop with the
links created so far already persisted, reported through the raised flag. -/
def add_links (s : ScanState) (urls : List String) (page : Option String) :
    ScanState × List ScanLink × Bool :=
  match urls with
  | [] => (s, [], false)
  | url :: rest =>
    match add_link s url page false with
    | .error _ => (s, [], true)
    | .ok (s1, none) => add_links s1 rest page
    | .ok (s1, some l) =>
      let (s2, ls, raised) := add_links s1 rest page
      (s2, l :: ls, raised)

/-- Embeds ScanLink.objects.get(pk=link_pk), keyed by url since (scan, url)
is unique. -/
def findLink (links : List ScanLink) (url : String) : Option ScanLink :=
  links.find? (fun l => l.url = url)

/-- Embeds link.save() at the end of a check unit: the in-memory link object
replaces the stored row with the same url (the custom save refreshes
domainname), and the ghost saveLog records the outcome write. -/
def saveLink (s : ScanState) (link : ScanLink) : ScanState :=
  let rec_ := { link with domainname := (urlsplitCore link.url).netloc }
  { s with links := s.links.map (fun l => if l.url = link.url then rec_ else l),
           saveLog := s.saveLog ++ [link.url] }

/-- Embeds the completion check at the end of check_link: when no link of the
scan remains uncrawled, the finish timestamp is assigned, unconditionally on
its present value. -/
def scanFinishCheck (s : ScanState) : ScanState :=
  if (non_scanned_links s.links).isEmpty then
    { s with scan_finished := true, finishWrites := s.finishWrites + 1 }
  else s

/-- Embeds link_is_broken from tasks.py: broken is set, and the reason text
is the HTTPStatus phrase when the stored status code is recognized, else the
range-based fallback; a missing status code falls through every range test
into the unknown-code message, as in Python where a None status is not a
member of any range. -/
def link_is_broken (link : ScanLink) : ScanLink :=
  match link.status_code with
  | some code =>
    match httpStatusPhrase code with
    | some p => { link with broken := true, error_text := some p }
    | none =>
      if 400 ≤ code ∧ code < 500 then
        { link with broken := true, error_text := some "Client error" }
      else if 500 ≤ code ∧ code < 600 then
        { link with broken := true, error_text := some "Server Error" }
      else
        { link with broken := true,
                    error_text := some ("Error: Unknown HTTP Status Code \x27" ++ toString code ++ "\x27") }
  | none =>
    { link with broken := true, error_text := some "Error: Unknown HTTP Status Code \x27None\x27" }

/-- Outcome of requests.get for one URL: a response with its status and the
references extractable from its content (the Link Extractor output for the
fetched document), or one of the transport failures distinguished by the
except clauses of check_link. -/
inductive FetchResult where
  | response (status : Int) (content : List String)
  | invalidSchema
  | connectionError
  | requestError (name desc : String)
deriving DecidableEq, Repr

/-- References extracted from a fetch outcome; transport failures carry none. -/
def refsOf : FetchResult → List String
  | .response _ content => content
  | _ => []

/-- Embeds the check_link task of tasks.py, run synchronously: fetches the
link URL, classifies the outcome, and for a successful fetch of a follow link
registers the extracted references and recursively dispatches every newly
created link (link_is_ok), then writes the outcome fields and runs the
completion check.  The second component reports a propagated exception
(DoesNotExist for a missing row, or the AttributeError escaping add_links);
a raised unit skips every later action of its callers, as an exception does
in the synchronous run mode.  The fuel argument only bounds recursion depth;
all theorems supply enough fuel for the zero case never to be reached. -/
def check_link (web : String → FetchResult) : Nat → ScanState → String → ScanState × Bool
  | 0, s, _ => (s, false)
  | fuel + 1, s, url =>
    match findLink s.links url with
    | none => (s, true)
    | some link =>
      if s.scan_finished then (s, false)
      else
        let s1 := { s with fetchLog := s.fetchLog ++ [url] }
        match web url with
        | .invalidSchema =>
          (scanFinishCheck (saveLink s1
            { link with invalid := true, error_text := some "Link was invalid", crawled := true }), false)
        | .connectionError =>
          (scanFinishCheck (saveLink s1
            { link with broken := true,
                        error_text := some "There was an error connecting to this site",
                        crawled := true }), false)
        | .requestError name desc =>
          (scanFinishCheck (saveLink s1
            { link with broken := true, error_text := some (name ++ ": " ++ desc),
                        crawled := true }), false)
        | .response status content =>
          let link := { link with status_code := some status }
          if 100 ≤ status ∧ status < 400 then
            if link.follow then
              let (s2, newLinks, raised) := add_links s1 content link.page
              if raised then (s2, true)
              else
                let out := (newLinks.map (fun l => l.url)).foldl
                  (fun acc u => if acc.2 then acc else check_link web fuel acc.1 u) (s2, false)
                if out.2 then out
                else (scanFinishCheck (saveLink out.1 { link with crawled := true }), false)
            else
              (scanFinishCheck (saveLink s1 { link with crawled := true }), false)
          else
            (scanFinishCheck (saveLink s1 { link_is_broken link with crawled := true }), false)

/-- Dispatch step of the synchronous loops: run the next unit unless an
earlier unit raised.  The foldl in check_link and the seed dispatch loop of
scan_pages both iterate this step. -/
def stepUnit (web : String → FetchResult) (fuel : Nat) (acc : ScanState × Bool) (u : String) :
    ScanState × Bool :=
  if acc.2 then acc else check_link web fuel acc.1 u

/-- Embeds the registration loop of Scan.scan_pages: each page URL is added
as a follow seed link against itself, collecting the created links in order;
add_link cannot raise here because the page is always present. -/
def seedPages (s : ScanState) (pages : List String) : ScanState × List ScanLink :=
  match pages with
  | [] => (s, [])
  | purl :: rest =>
    match add_link s purl (some purl) true with
    | .error _ => seedPages s rest
    | .ok (s1, none) => seedPages s1 rest
    | .ok (s1, some l) =>
      let (s2, ls) := seedPages s1 rest
      (s2, l :: ls)

/-- Embeds Scan.scan_pages run synchronously: register every page as a seed
link, then dispatch each created link with check_link. -/
def scan_pages (web : String → FetchResult) (fuel : Nat) (s : ScanState) (pages : List String) :
    ScanState × Bool :=
  let (s1, seeds) := seedPages s pages
  (seeds.map (fun l => l.url)).foldl (stepUnit web fuel) (s1, false)

/-- Embeds the POST branch of the stop view: a finished scan is left alone,
otherwise the finish timestamp is assigned. -/
def stop (s : ScanState) : ScanState :=
  if s.scan_finished then s
  else { s with scan_finished := true, finishWrites := s.finishWrites + 1 }

/-- Validity of a stored URL scheme, the property Scan.add_link enforces. -/
def schemeOK (u : String) : Bool :=
  (urlsplitCore u).scheme = "http" || (urlsplitCore u).scheme = "https"

/-! Basic lemmas about rows, registration and the registry operations. -/

theorem url_inj {links : List ScanLink} (h : (links.map (fun l => l.url)).Nodup)
    {a b : ScanLink} (ha : a ∈ links) (hb : b ∈ links) (hurl : a.url = b.url) : a = b :=
  List.inj_on_of_nodup_map h ha hb hurl

theorem registered_iff {s : ScanState} {u : String} :
    registered s u = true ↔ ∃ l ∈ s.links, l.url = u := by
  simp [registered]

theorem findLink_of_mem {links : List ScanLink} (h : (links.map (fun l => l.url)).Nodup)
    {l0 : ScanLink} {url : String} (hmem : l0 ∈ links) (hurl : l0.url = url) :
    findLink links url = some l0 := by
  induction links with
  | nil => cases hmem
  | cons l t ih =>
    by_cases hl : l.url = url
    · have : l0 = l := by
        rcases List.mem_cons.mp hmem with h1 | h1
        · exact h1
        · exact url_inj h (List.mem_cons_of_mem _ h1) (List.mem_cons_self _ _) (hurl.trans hl.symm)
      subst this
      simp [findLink, List.find?, hl]
    · have hl0t : l0 ∈ t := by
        rcases List.mem_cons.mp hmem with h1 | h1
        · exact absurd (h1 ▸ hurl) hl
        · exact h1
      have := ih (by simpa using (List.nodup_cons.mp (by simpa using h)).2) hl0t
      simpa [findLink, List.find?, hl] using this

theorem mem_append_left_links {s : ScanState} {ts : List ScanLink} {l : ScanLink}
    (h : l ∈ s.links) : l ∈ s.links ++ ts := List.mem_append_left _ h

theorem registered_mono_append {s : ScanState} {ts : List ScanLink} {u : String}
    (h : registered s u = true) :
    registered { s with links := s.links ++ ts } u = true := by
  rcases registered_iff.mp h with ⟨l, hl, hu⟩
  exact registered_iff.mpr ⟨l, List.mem_append_left _ hl, hu⟩

/-- Case analysis of Scan.add_link when the page is present: either a silent
no-op returning nothing, or the creation of a fresh row for the resolution. -/
theorem add_link_cases (s : ScanState) (url base : String) (follow : Bool) :
    add_link s url (some base) follow = .ok (s, none) ∨
    (add_link s url (some base) follow =
        .ok ({ s with links := s.links ++ [mkScanLink (urljoin base url) (some base) follow] },
             some (mkScanLink (urljoin base url) (some base) follow)) ∧
      registered s (urljoin base url) = false ∧
      schemeOK (urljoin base url) = true) := by
  unfold add_link
  by_cases h1 : url = "" || strStartsWith url "#"
  · left; simp [h1]
  · simp only [h1, Bool.false_eq_true, if_false]
    by_cases h2 : (urlsplitCore (urljoin base url)).scheme = "http" ∨
        (urlsplitCore (urljoin base url)).scheme = "https"
    · by_cases h3 : registered s (urljoin base url)
      · left; simp [h2, h3]
      · by_cases h4 : 500 < (urljoin base url).length
        · left; simp [h2, h3, h4]
        · right
          refine ⟨by simp [h2, h3, h4], by simpa using h3, ?_⟩
          simp only [schemeOK, Bool.or_eq_true, decide_eq_true_eq]
          exact h2
    · left; simp [h2]

/-- Joint result of an add_links call: no exception, rows appended in order,
every new row fresh, unregistered beforehand, schemed, resolved from one of
the candidates, with pairwise distinct URLs; the scan flags and ghost logs
are untouched. -/
structure AddLinksRes (s : ScanState) (urls : List String) (base : String)
    (out : ScanState × List ScanLink × Bool) : Prop where
  noRaise : out.2.2 = false
  linksEq : out.1.links = s.links ++ out.2.1
  finishedEq : out.1.scan_finished = s.scan_finished
  fetchEq : out.1.fetchLog = s.fetchLog
  saveEq : out.1.saveLog = s.saveLog
  writesEq : out.1.finishWrites = s.finishWrites
  fresh : ∀ l ∈ out.2.1, l.crawled = false ∧ l.invalid = false ∧ l.broken = false ∧
    l.status_code = none ∧ l.error_text = none ∧ l.page = some base ∧ l.follow = false
  schemes : ∀ l ∈ out.2.1, schemeOK l.url = true
  unreg : ∀ l ∈ out.2.1, registered s l.url = false
  sources : ∀ l ∈ out.2.1, ∃ u ∈ urls, l.url = urljoin base u
  nodupNew : (out.2.1.map (fun l => l.url)).Nodup

theorem add_links_spec (urls : List String) (s : ScanState) (base : String) :
    AddLinksRes s urls base (add_links s urls (some base)) := by
  induction urls generalizing s with
  | nil =>
    exact ⟨rfl, by simp [add_links], rfl, rfl, rfl, rfl, by simp [add_links],
      by simp [add_links], by simp [add_links], by simp [add_links], by simp [add_links]⟩
  | cons u rest ih =>
    rcases add_link_cases s u base false with hcase | ⟨hcase, hunreg, hscheme⟩
    · have hrec := ih s
      refine ⟨?_, ?_, ?_, ?_, ?_, ?_, ?_, ?_, ?_, ?_, ?_⟩ <;>
        simp only [add_links, hcase] <;>
        first
        | exact hrec.noRaise
        | exact hrec.linksEq
        | exact hrec.finishedEq
        | exact hrec.fetchEq
        | exact hrec.saveEq
        | exact hrec.writesEq
        | exact hrec.fresh
        | exact hrec.schemes
        | exact hrec.unreg
        | (intro l hl; rcases hrec.sources l hl with ⟨u1, hu1, he⟩;
           exact ⟨u1, List.mem_cons_of_mem _ hu1, he⟩)
        | exact hrec.nodupNew
    · set nl := mkScanLink (urljoin base u) (some base) false with hnl
      set s1 : ScanState := { s with links := s.links ++ [nl] } with hs1
      have hrec := ih s1
      have hout : add_links s (u :: rest) (some base) =
          ((add_links s1 rest (some base)).1,
            nl :: (add_links s1 rest (some base)).2.1,
            (add_links s1 rest (some base)).2.2) := by
        simp [add_links, hcase]
      rw [hout]
      have hunregS1 : ∀ l ∈ (add_links s1 rest (some base)).2.1, registered s l.url = false := by
        intro l hl
        have h1 := hrec.unreg l hl
        cases h : registered s l.url
        · rfl
        · have h2 : registered s1 l.url = true := by
            rw [hs1]; exact registered_mono_append h
          rw [h1] at h2
          exact absurd h2 (by simp)
      refine ⟨hrec.noRaise, ?_, hrec.finishedEq, hrec.fetchEq, hrec.saveEq, hrec.writesEq,
        ?_, ?_, ?_, ?_, ?_⟩
      · simpa [hs1, List.append_assoc] using hrec.linksEq
      · intro l hl
        rcases List.mem_cons.mp hl with h1 | h1
        · subst h1; simp [hnl, mkScanLink]
        · exact hrec.fresh l h1
      · intro l hl
        rcases List.mem_cons.mp hl with h1 | h1
        · subst h1; exact hscheme
        · exact hrec.schemes l h1
      · intro l hl
        rcases List.mem_cons.mp hl with h1 | h1
        · subst h1; exact hunreg
        · exact hunregS1 l h1
      · intro l hl
        rcases List.mem_cons.mp hl with h1 | h1
        · exact ⟨u, List.mem_cons_self _ _, by rw [h1]; simp [hnl, mkScanLink]⟩
        · rcases hrec.sources l h1 with ⟨u1, hu1, he⟩
          exact ⟨u1, List.mem_cons_of_mem _ hu1, he⟩
      · refine List.nodup_cons.mpr ⟨?_, hrec.nodupNew⟩
        intro hc
        rcases List.mem_map.mp hc with ⟨l, hl, he⟩
        have h1 := hrec.unreg l hl
        have h2 : registered s1 nl.url = true := by
          refine registered_iff.mpr ⟨nl, ?_, rfl⟩
          rw [hs1]
          exact List.mem_append_right _ (List.mem_singleton_self _)
        have h3 : registered s1 l.url = true := by
          have hbeta : l.url = nl.url := he
          rw [hbeta]
          exact h2
        rw [h1] at h3
        exact absurd h3 (by simp)

/-! Fuel accounting: the number of universe URLs not yet registered. -/

/-- Number of URLs of the universe list not yet registered in the scan. -/
def freeCount (U : List String) (s : ScanState) : Nat :=
  (U.filter (fun u => !(registered s u))).length

theorem freeCount_le {s s2 : ScanState} (U : List String)
    (hmono : ∀ u, registered s u = true → registered s2 u = true) :
    freeCount U s2 ≤ freeCount U s := by
  induction U with
  | nil => simp [freeCount]
  | cons a t ih =>
    simp only [freeCount, List.filter_cons] at ih ⊢
    cases h1 : registered s a
    · cases h2 : registered s2 a
      · simpa [h1, h2] using Nat.succ_le_succ ih
      · simpa [h1, h2] using Nat.le_succ_of_le ih
    · have h2 := hmono a h1
      simpa [h1, h2] using ih

theorem freeCount_lt {s s2 : ScanState} (U : List String) {u0 : String}
    (hmono : ∀ u, registered s u = true → registered s2 u = true)
    (hu0U : u0 ∈ U) (h0s : registered s u0 = false) (h0s2 : registered s2 u0 = true) :
    freeCount U s2 < freeCount U s := by
  induction U with
  | nil => cases hu0U
  | cons a t ih =>
    simp only [freeCount, List.filter_cons] at ih ⊢
    rcases List.mem_cons.mp hu0U with h | h
    · subst h
      simp only [h0s, h0s2]
      simpa using Nat.lt_succ_of_le (freeCount_le t hmono)
    · have hlt := ih h
      cases h1 : registered s a
      · cases h2 : registered s2 a
        · simpa [h1, h2] using Nat.succ_lt_succ hlt
        · simpa [h1, h2] using Nat.lt_succ_of_lt hlt
      · have h2 := hmono a h1
        simpa [h1, h2] using hlt

/-! The crawl invariant and frame lemmas for the commit step of a unit. -/

/-- Invariant maintained by the synchronous crawl over a universe U of
reachable URLs and a set P of page base URLs: rows are schemed, deduplicated,
inside the universe, owned by a page of P; pending rows still carry their
creation defaults; invalid and broken never hold together; the finish
timestamp is written at most once and only when nothing is pending; outcome
writes are recorded at most once per URL and only for crawled rows. -/
structure Inv (U P : List String) (s : ScanState) : Prop where
  urlsU : ∀ l ∈ s.links, l.url ∈ U
  pagesP : ∀ l ∈ s.links, ∃ b ∈ P, l.page = some b
  nodupUrls : (s.links.map (fun l => l.url)).Nodup
  finishedCrawled : s.scan_finished = true → ∀ l ∈ s.links, l.crawled = true
  writesZero : s.scan_finished = false → s.finishWrites = 0
  writesLe : s.finishWrites ≤ 1
  freshPending : ∀ l ∈ s.links, l.crawled = false → l.invalid = false ∧ l.broken = false ∧
    l.status_code = none ∧ l.error_text = none
  exclusive : ∀ l ∈ s.links, ¬(l.invalid = true ∧ l.broken = true)
  schemes : ∀ l ∈ s.links, schemeOK l.url = true
  saveNodup : s.saveLog.Nodup
  saveCrawled : ∀ u ∈ s.saveLog, ∃ l ∈ s.links, l.url = u ∧ l.crawled = true

theorem Inv.withFetch {U P : List String} {s : ScanState} (h : Inv U P s) (f : List String) :
    Inv U P { s with fetchLog := f } :=
  ⟨h.urlsU, h.pagesP, h.nodupUrls, h.finishedCrawled, h.writesZero, h.writesLe,
   h.freshPending, h.exclusive, h.schemes, h.saveNodup, h.saveCrawled⟩

theorem saveLink_links (s : ScanState) (k : ScanLink) :
    (saveLink s k).links =
      s.links.map (fun l =>
        if l.url = k.url then { k with domainname := (urlsplitCore k.url).netloc } else l) := rfl

theorem scanFinishCheck_links (s : ScanState) : (scanFinishCheck s).links = s.links := by
  unfold scanFinishCheck
  split <;> rfl

theorem scanFinishCheck_saveLog (s : ScanState) : (scanFinishCheck s).saveLog = s.saveLog := by
  unfold scanFinishCheck
  split <;> rfl

theorem non_scanned_empty_iff {links : List ScanLink} :
    (non_scanned_links links).isEmpty = true ↔ ∀ l ∈ links, l.crawled = true := by
  simp [non_scanned_links, List.isEmpty_iff, List.filter_eq_nil_iff]

theorem scanFinishCheck_fin_of_empty {s : ScanState}
    (h : (non_scanned_links s.links).isEmpty = true) :
    (scanFinishCheck s).scan_finished = true := by
  unfold scanFinishCheck
  simp [h]

theorem registered_eq_of_links_map {s s2 : ScanState}
    (h : s2.links.map (fun l => l.url) = s.links.map (fun l => l.url)) (u : String) :
    registered s2 u = registered s u := by
  cases h1 : registered s u
  · cases h2 : registered s2 u
    · rfl
    · exfalso
      rcases registered_iff.mp h2 with ⟨l, hl, hu⟩
      have : u ∈ s.links.map (fun l => l.url) := by
        rw [← h]
        exact List.mem_map.mpr ⟨l, hl, hu⟩
      rcases List.mem_map.mp this with ⟨l1, hl1, hu1⟩
      have := registered_iff.mpr ⟨l1, hl1, hu1⟩
      rw [h1] at this
      exact absurd this (by simp)
  · rcases registered_iff.mp h1 with ⟨l, hl, hu⟩
    have : u ∈ s2.links.map (fun l => l.url) := by
      rw [h]
      exact List.mem_map.mpr ⟨l, hl, hu⟩
    rcases List.mem_map.mp this with ⟨l1, hl1, hu1⟩
    exact registered_iff.mpr ⟨l1, hl1, hu1⟩

theorem saveLink_map_url (s : ScanState) (k : ScanLink) :
    (saveLink s k).links.map (fun l => l.url) = s.links.map (fun l => l.url) := by
  rw [saveLink_links, List.map_map]
  apply List.map_congr_left
  intro l _
  by_cases h : l.url = k.url
  · simp [h]
  · simp [h]

theorem scanFinishCheck_inv {U P : List String} {s : ScanState} (h : Inv U P s)
    (hfin : s.scan_finished = false) : Inv U P (scanFinishCheck s) := by
  unfold scanFinishCheck
  by_cases hc : (non_scanned_links s.links).isEmpty
  · simp only [hc, if_true]
    refine ⟨h.urlsU, h.pagesP, h.nodupUrls, ?_, ?_, ?_, h.freshPending, h.exclusive,
      h.schemes, h.saveNodup, h.saveCrawled⟩
    · intro _
      exact non_scanned_empty_iff.mp hc
    · intro hf
      exact absurd hf (by simp)
    · have := h.writesZero hfin
      simp [this]
  · simp only [hc, if_false]
    exact h

/-- Effect of the commit tail of a check unit (link.save followed by the
completion check) on a state whose stored row for the URL is still pending:
the invariant is preserved, registration is untouched, every other row is
untouched, the row for the URL is now the written record, and an empty
pending set forces the finished flag. -/
theorem commit_spec {U P : List String} {sA : ScanState} {url : String} (rec : ScanLink)
    (hInv : Inv U P sA) (hfin : sA.scan_finished = false)
    (hrow : ∃ la ∈ sA.links, la.url = url ∧ la.crawled = false)
    (hrecurl : rec.url = url) (hreccr : rec.crawled = true)
    (hexcl : ¬(rec.invalid = true ∧ rec.broken = true))
    (hpage : ∃ b ∈ P, rec.page = some b) :
    Inv U P (scanFinishCheck (saveLink sA rec)) ∧
    (∀ u, registered (scanFinishCheck (saveLink sA rec)) u = registered sA u) ∧
    (∀ l ∈ sA.links, l.url ≠ url → l ∈ (scanFinishCheck (saveLink sA rec)).links) ∧
    (∃ l ∈ (scanFinishCheck (saveLink sA rec)).links, l.url = url ∧ l.crawled = true) ∧
    (∀ l ∈ (scanFinishCheck (saveLink sA rec)).links,
        l = { rec with domainname := (urlsplitCore rec.url).netloc } ∨
          (l ∈ sA.links ∧ l.url ≠ url)) ∧
    ((non_scanned_links (scanFinishCheck (saveLink sA rec)).links).isEmpty = true →
        (scanFinishCheck (saveLink sA rec)).scan_finished = true) := by
  obtain ⟨la, hlamem, hlaurl, hlacr⟩ := hrow
  set recD : ScanLink := { rec with domainname := (urlsplitCore rec.url).netloc } with hrecD
  have hlinksS : (saveLink sA rec).links =
      sA.links.map (fun l => if l.url = rec.url then recD else l) := saveLink_links _ _
  have hmapu : (saveLink sA rec).links.map (fun l => l.url) =
      sA.links.map (fun l => l.url) := saveLink_map_url _ _
  have hfinS : (saveLink sA rec).scan_finished = false := hfin
  have hmemChar : ∀ l ∈ (saveLink sA rec).links,
      l = recD ∨ (l ∈ sA.links ∧ l.url ≠ url) := by
    intro l hl
    rw [hlinksS] at hl
    rcases List.mem_map.mp hl with ⟨l1, hl1, he⟩
    by_cases h : l1.url = rec.url
    · left
      rw [← he]
      simp [h]
    · right
      rw [← he]
      simp only [h, if_false]
      exact ⟨hl1, by rw [hrecurl] at h; exact h⟩
  have hframe : ∀ l ∈ sA.links, l.url ≠ url → l ∈ (saveLink sA rec).links := by
    intro l hl hne
    rw [hlinksS]
    exact List.mem_map.mpr ⟨l, hl, by rw [hrecurl]; simp [hne]⟩
  have htargetMem : recD ∈ (saveLink sA rec).links := by
    rw [hlinksS]
    exact List.mem_map.mpr ⟨la, hlamem, by simp [hlaurl, hrecurl]⟩
  have hrecDurl : recD.url = url := hrecurl
  have hrecDcr : recD.crawled = true := hreccr
  have hurlNotInLog : url ∉ sA.saveLog := by
    intro hc
    rcases hInv.saveCrawled url hc with ⟨l, hl, hu, hcr⟩
    have he : l = la := url_inj hInv.nodupUrls hl hlamem (hu.trans hlaurl.symm)
    rw [he, hlacr] at hcr
    exact absurd hcr (by simp)
  have hInvS : Inv U P (saveLink sA rec) := by
    refine ⟨?_, ?_, ?_, ?_, ?_, ?_, ?_, ?_, ?_, ?_, ?_⟩
    · intro l hl
      rcases hmemChar l hl with h | ⟨h, _⟩
      · rw [h]
        show recD.url ∈ U
        rw [hrecDurl, ← hlaurl]
        exact hInv.urlsU la hlamem
      · exact hInv.urlsU l h
    · intro l hl
      rcases hmemChar l hl with h | ⟨h, _⟩
      · rw [h]
        exact hpage
      · exact hInv.pagesP l h
    · rw [hmapu]
      exact hInv.nodupUrls
    · intro hf
      rw [hfinS] at hf
      exact absurd hf (by simp)
    · intro _
      show sA.finishWrites = 0
      exact hInv.writesZero hfin
    · show sA.finishWrites ≤ 1
      exact hInv.writesLe
    · intro l hl hcr
      rcases hmemChar l hl with h | ⟨h, _⟩
      · rw [h, hrecDcr] at hcr
        exact absurd hcr (by simp)
      · exact hInv.freshPending l h hcr
    · intro l hl
      rcases hmemChar l hl with h | ⟨h, _⟩
      · rw [h]
        show ¬(rec.invalid = true ∧ rec.broken = true)
        exact hexcl
      · exact hInv.exclusive l h
    · intro l hl
      rcases hmemChar l hl with h | ⟨h, _⟩
      · rw [h]
        show schemeOK recD.url = true
        rw [hrecDurl, ← hlaurl]
        exact hInv.schemes la hlamem
      · exact hInv.schemes l h
    · show (sA.saveLog ++ [rec.url]).Nodup
      rw [hrecurl, List.nodup_append]
      refine ⟨hInv.saveNodup, List.nodup_singleton _, ?_⟩
      intro a ha hb
      rw [List.mem_singleton.mp hb] at ha
      exact hurlNotInLog ha
    · intro u hu
      have hu2 : u ∈ sA.saveLog ++ [rec.url] := hu
      rcases List.mem_append.mp hu2 with h | h
      · rcases hInv.saveCrawled u h with ⟨l, hl, hul, hcr⟩
        have hne : l.url ≠ url := by
          intro hc
          have he : l = la := url_inj hInv.nodupUrls hl hlamem (hc.trans hlaurl.symm)
          rw [he, hlacr] at hcr
          exact absurd hcr (by simp)
        exact ⟨l, hframe l hl hne, hul, hcr⟩
      · have he : u = rec.url := by simpa using h
        refine ⟨recD, htargetMem, ?_, hrecDcr⟩
        rw [he]
  have hlinksFC : (scanFinishCheck (saveLink sA rec)).links = (saveLink sA rec).links :=
    scanFinishCheck_links _
  refine ⟨scanFinishCheck_inv hInvS hfinS, ?_, ?_, ?_, ?_, ?_⟩
  · intro u
    refine registered_eq_of_links_map ?_ u
    rw [hlinksFC]
    exact hmapu
  · intro l hl hne
    rw [hlinksFC]
    exact hframe l hl hne
  · exact ⟨recD, by rw [hlinksFC]; exact htargetMem, hrecDurl, hrecDcr⟩
  · intro l hl
    rw [hlinksFC] at hl
    exact hmemChar l hl
  · intro hdone
    exact scanFinishCheck_fin_of_empty (by rw [← hlinksFC]; exact hdone)

/-! Unfolding equations for the branches of a check unit. -/

theorem check_link_finished (web : String → FetchResult) (fuel : Nat) (s : ScanState)
    (url : String) (hreg : registered s url = true) (hfin : s.scan_finished = true) :
    check_link web fuel s url = (s, false) := by
  rcases registered_iff.mp hreg with ⟨l, hl, hu⟩
  cases fuel with
  | zero => rfl
  | succ fuel =>
    have hfound : (findLink s.links url).isSome := by
      simp only [findLink, List.find?_isSome]
      exact ⟨l, hl, by simp [hu]⟩
    rcases hsome : findLink s.links url with _ | l1
    · rw [hsome] at hfound
      simp at hfound
    · simp [check_link, hsome, hfin]

theorem check_link_eq_invalid (web : String → FetchResult) (fuel : Nat) (s : ScanState)
    (url : String) (l0 : ScanLink) (hfind : findLink s.links url = some l0)
    (hfin : s.scan_finished = false) (hweb : web url = .invalidSchema) :
    check_link web (fuel+1) s url =
      (scanFinishCheck (saveLink { s with fetchLog := s.fetchLog ++ [url] }
        { l0 with invalid := true, error_text := some "Link was invalid", crawled := true }),
       false) := by
  simp [check_link, hfind, hfin, hweb]

theorem check_link_eq_conn (web : String → FetchResult) (fuel : Nat) (s : ScanState)
    (url : String) (l0 : ScanLink) (hfind : findLink s.links url = some l0)
    (hfin : s.scan_finished = false) (hweb : web url = .connectionError) :
    check_link web (fuel+1) s url =
      (scanFinishCheck (saveLink { s with fetchLog := s.fetchLog ++ [url] }
        { l0 with broken := true,
                  error_text := some "There was an error connecting to this site",
                  crawled := true }), false) := by
  simp [check_link, hfind, hfin, hweb]

theorem check_link_eq_reqerr (web : String → FetchResult) (fuel : Nat) (s : ScanState)
    (url : String) (l0 : ScanLink) (hfind : findLink s.links url = some l0)
    (hfin : s.scan_finished = false) (name desc : String)
    (hweb : web url = .requestError name desc) :
    check_link web (fuel+1) s url =
      (scanFinishCheck (saveLink { s with fetchLog := s.fetchLog ++ [url] }
        { l0 with broken := true, error_text := some (name ++ ": " ++ desc),
                  crawled := true }), false) := by
  simp [check_link, hfind, hfin, hweb]

theorem check_link_eq_broken (web : String → FetchResult) (fuel : Nat) (s : ScanState)
    (url : String) (l0 : ScanLink) (hfind : findLink s.links url = some l0)
    (hfin : s.scan_finished = false) (status : Int) (content : List String)
    (hweb : web url = .response status content)
    (hrange : ¬(100 ≤ status ∧ status < 400)) :
    check_link web (fuel+1) s url =
      (scanFinishCheck (saveLink { s with fetchLog := s.fetchLog ++ [url] }
        { link_is_broken { l0 with status_code := some status } with crawled := true }),
       false) := by
  simp [check_link, hfind, hfin, hweb, hrange]

theorem check_link_eq_nofollow (web : String → FetchResult) (fuel : Nat) (s : ScanState)
    (url : String) (l0 : ScanLink) (hfind : findLink s.links url = some l0)
    (hfin : s.scan_finished = false) (status : Int) (content : List String)
    (hweb : web url = .response status content)
    (hrange : 100 ≤ status ∧ status < 400) (hfol : l0.follow = false) :
    check_link web (fuel+1) s url =
      (scanFinishCheck (saveLink { s with fetchLog := s.fetchLog ++ [url] }
        { l0 with status_code := some status, crawled := true }), false) := by
  simp [check_link, hfind, hfin, hweb, hrange, hfol]

theorem check_link_eq_follow (web : String → FetchResult) (fuel : Nat) (s : ScanState)
    (url : String) (l0 : ScanLink) (hfind : findLink s.links url = some l0)
    (hfin : s.scan_finished = false) (status : Int) (content : List String)
    (hweb : web url = .response status content)
    (hrange : 100 ≤ status ∧ status < 400) (hfol : l0.follow = true) (base : String)
    (hpage : l0.page = some base) :
    check_link web (fuel+1) s url =
      (if (add_links { s with fetchLog := s.fetchLog ++ [url] } content (some base)).2.2 then
        ((add_links { s with fetchLog := s.fetchLog ++ [url] } content (some base)).1, true)
       else
        if (((add_links { s with fetchLog := s.fetchLog ++ [url] } content (some base)).2.1.map
              (fun l => l.url)).foldl (stepUnit web fuel)
              ((add_links { s with fetchLog := s.fetchLog ++ [url] } content (some base)).1, false)).2 then
          (((add_links { s with fetchLog := s.fetchLog ++ [url] } content (some base)).2.1.map
              (fun l => l.url)).foldl (stepUnit web fuel)
              ((add_links { s with fetchLog := s.fetchLog ++ [url] } content (some base)).1, false))
        else
          (scanFinishCheck (saveLink
            (((add_links { s with fetchLog := s.fetchLog ++ [url] } content (some base)).2.1.map
              (fun l => l.url)).foldl (stepUnit web fuel)
              ((add_links { s with fetchLog := s.fetchLog ++ [url] } content (some base)).1, false)).1
            { l0 with status_code := some status, crawled := true }), false)) := by
  simp only [check_link, hfind]
  rw [if_neg (by simp [hfin])]
  simp only [hweb, hpage, hfol, hrange, and_self, if_true, stepUnit]
  rfl

/-- Fields of the link object untouched by link_is_broken. -/
theorem link_is_broken_fields (l : ScanLink) :
    (link_is_broken l).url = l.url ∧ (link_is_broken l).page = l.page ∧
    (link_is_broken l).invalid = l.invalid ∧ (link_is_broken l).broken = true ∧
    (link_is_broken l).crawled = l.crawled ∧ (link_is_broken l).follow = l.follow ∧
    (link_is_broken l).status_code = l.status_code := by
  unfold link_is_broken
  rcases hsc : l.status_code with _ | code
  · simp
  · rcases hph : httpStatusPhrase code with _ | p
    · by_cases h1 : 400 ≤ code ∧ code < 500
      · simp [hph, h1]
      · by_cases h2 : 500 ≤ code ∧ code < 600
        · simp [hph, h1, h2]
        · simp [hph, h1, h2]
    · simp [hph]

/-- Invariant preservation by the registration of extracted references into
an unfinished scan, when every newly created row stays in the universe. -/
theorem inv_after_add {U P : List String} {s1 : ScanState} {base : String}
    {content : List String}
    (hInv : Inv U P s1) (hfin : s1.scan_finished = false) (hbP : base ∈ P)
    (hnewU : ∀ l ∈ (add_links s1 content (some base)).2.1, l.url ∈ U) :
    Inv U P (add_links s1 content (some base)).1 := by
  have AL := add_links_spec content s1 base
  have hlinks := AL.linksEq
  refine ⟨?_, ?_, ?_, ?_, ?_, ?_, ?_, ?_, ?_, ?_, ?_⟩
  · intro l hl
    rw [hlinks] at hl
    rcases List.mem_append.mp hl with h | h
    · exact hInv.urlsU l h
    · exact hnewU l h
  · intro l hl
    rw [hlinks] at hl
    rcases List.mem_append.mp hl with h | h
    · exact hInv.pagesP l h
    · exact ⟨base, hbP, (AL.fresh l h).2.2.2.2.2.1⟩
  · rw [hlinks, List.map_append, List.nodup_append]
    refine ⟨hInv.nodupUrls, AL.nodupNew, ?_⟩
    intro a ha hb
    rcases List.mem_map.mp ha with ⟨l1, hl1, he1⟩
    rcases List.mem_map.mp hb with ⟨l2, hl2, he2⟩
    have hreg : registered s1 a = true := registered_iff.mpr ⟨l1, hl1, he1⟩
    have hunreg := AL.unreg l2 hl2
    rw [he2] at hunreg
    rw [hunreg] at hreg
    exact absurd hreg (by simp)
  · intro hf
    rw [AL.finishedEq, hfin] at hf
    exact absurd hf (by simp)
  · intro _
    rw [AL.writesEq]
    exact hInv.writesZero hfin
  · rw [AL.writesEq]
    exact hInv.writesLe
  · intro l hl hcr
    rw [hlinks] at hl
    rcases List.mem_append.mp hl with h | h
    · exact hInv.freshPending l h hcr
    · have hf := AL.fresh l h
      exact ⟨hf.2.1, hf.2.2.1, hf.2.2.2.1, hf.2.2.2.2.1⟩
  · intro l hl
    rw [hlinks] at hl
    rcases List.mem_append.mp hl with h | h
    · exact hInv.exclusive l h
    · intro hc
      have hf := AL.fresh l h
      rw [hf.2.1] at hc
      exact absurd hc.1 (by simp)
  · intro l hl
    rw [hlinks] at hl
    rcases List.mem_append.mp hl with h | h
    · exact hInv.schemes l h
    · exact AL.schemes l h
  · rw [AL.saveEq]
    exact hInv.saveNodup
  · intro u hu
    rw [AL.saveEq] at hu
    rcases hInv.saveCrawled u hu with ⟨l, hl, hul, hcr⟩
    exact ⟨l, by rw [hlinks]; exact List.mem_append_left _ hl, hul, hcr⟩

/-! Specification of a single check unit and of a dispatch sequence. -/

/-- Result specification of one check unit on a pending registered link:
no exception escapes, the invariant holds afterwards, registration only
grows, every other row is untouched, the processed row is now crawled, every
row not registered beforehand is crawled, and an empty pending set at the
end forces the finished flag. -/
structure UnitRes (U P : List String) (s : ScanState) (url : String)
    (out : ScanState × Bool) : Prop where
  noRaise : out.2 = false
  inv : Inv U P out.1
  regMono : ∀ u, registered s u = true → registered out.1 u = true
  frame : ∀ l ∈ s.links, l.url ≠ url → l ∈ out.1.links
  target : ∃ l ∈ out.1.links, l.url = url ∧ l.crawled = true
  newCrawled : ∀ l ∈ out.1.links, registered s l.url = false → l.crawled = true
  finIfDone : (non_scanned_links out.1.links).isEmpty = true → out.1.scan_finished = true

/-- Result specification of a synchronous dispatch sequence over pairwise
distinct pending URLs. -/
structure ListRes (U P : List String) (s : ScanState) (urls : List String)
    (out : ScanState × Bool) : Prop where
  noRaise : out.2 = false
  inv : Inv U P out.1
  regMono : ∀ u, registered s u = true → registered out.1 u = true
  frame : ∀ l ∈ s.links, l.url ∉ urls → l ∈ out.1.links
  targets : ∀ u ∈ urls, ∃ l ∈ out.1.links, l.url = u ∧ l.crawled = true
  newCrawled : ∀ l ∈ out.1.links, registered s l.url = false → l.crawled = true
  finIfDone : urls ≠ [] → (non_scanned_links out.1.links).isEmpty = true →
    out.1.scan_finished = true

/-- Lifts the unit specification at one fuel level to a whole dispatch
sequence at that level. -/
theorem list_of_unit (web : String → FetchResult) {U P : List String} (g : Nat)
    (hg : ∀ s url, Inv U P s → freeCount U s < g →
      (∃ l ∈ s.links, l.url = url ∧ l.crawled = false) →
      UnitRes U P s url (check_link web g s url)) :
    ∀ urls s, Inv U P s → urls.Nodup →
      (∀ u ∈ urls, ∃ l ∈ s.links, l.url = u ∧ l.crawled = false) →
      (urls ≠ [] → freeCount U s < g) →
      ListRes U P s urls (urls.foldl (stepUnit web g) (s, false)) := by
  intro urls
  induction urls with
  | nil =>
    intro s hInv _ _ _
    refine ⟨rfl, hInv, fun u h => h, fun l hl _ => hl, by simp, ?_, by simp⟩
    intro l hl hreg
    have : registered s l.url = true := registered_iff.mpr ⟨l, hl, rfl⟩
    rw [hreg] at this
    exact absurd this (by simp)
  | cons u us ih =>
    intro s hInv hnodup hpend hb
    have hbu := hb (by simp)
    have hu := hg s u hInv hbu (hpend u (List.mem_cons_self _ _))
    have hfold : (u :: us).foldl (stepUnit web g) (s, false) =
        us.foldl (stepUnit web g) (check_link web g s u) := by
      simp [List.foldl_cons, stepUnit]
    have hpair : check_link web g s u = ((check_link web g s u).1, false) := by
      rw [← hu.noRaise]
    have hnodup2 := List.nodup_cons.mp hnodup
    have huNotUs : u ∉ us := hnodup2.1
    have hpend2 : ∀ v ∈ us, ∃ l ∈ (check_link web g s u).1.links, l.url = v ∧ l.crawled = false := by
      intro v hv
      rcases hpend v (List.mem_cons_of_mem _ hv) with ⟨l, hl, hurl, hcr⟩
      have hne : l.url ≠ u := by
        rw [hurl]
        intro hc
        rw [hc] at hv
        exact huNotUs hv
      exact ⟨l, hu.frame l hl hne, hurl, hcr⟩
    have hb2 : us ≠ [] → freeCount U (check_link web g s u).1 < g := by
      intro _
      exact Nat.lt_of_le_of_lt (freeCount_le U hu.regMono) hbu
    have hrest := ih (check_link web g s u).1 hu.inv hnodup2.2 hpend2 hb2
    rw [hfold, hpair]
    have hout : ((check_link web g s u).1, false) =
        (((check_link web g s u).1, false) : ScanState × Bool) := rfl
    refine ⟨hrest.noRaise, hrest.inv, ?_, ?_, ?_, ?_, ?_⟩
    · intro v hv
      exact hrest.regMono v (hu.regMono v hv)
    · intro l hl hnin
      have hne : l.url ≠ u := fun hc => hnin (by rw [hc]; exact List.mem_cons_self _ _)
      have hnus : l.url ∉ us := fun hc => hnin (List.mem_cons_of_mem _ hc)
      exact hrest.frame l (hu.frame l hl hne) hnus
    · intro v hv
      rcases List.mem_cons.mp hv with h | h
      · subst h
        rcases hu.target with ⟨l, hl, hurl, hcr⟩
        have hnus : l.url ∉ us := by
          rw [hurl]
          exact huNotUs
        exact ⟨l, hrest.frame l hl hnus, hurl, hcr⟩
      · exact hrest.targets v h
    · intro l hl hreg
      cases hreg1 : registered (check_link web g s u).1 l.url
      · exact hrest.newCrawled l hl hreg1
      · rcases registered_iff.mp hreg1 with ⟨r1, hr1, hr1u⟩
        have hr1cr : r1.crawled = true := hu.newCrawled r1 hr1 (by rw [hr1u]; exact hreg)
        by_cases hin : r1.url ∈ us
        · rcases hrest.targets r1.url hin with ⟨r2, hr2, hr2u, hr2cr⟩
          have : l = r2 :=
            url_inj hrest.inv.nodupUrls hl hr2 (by rw [hr2u, hr1u])
          rw [this]
          exact hr2cr
        · have hr1mem := hrest.frame r1 hr1 hin
          have : l = r1 := url_inj hrest.inv.nodupUrls hl hr1mem hr1u.symm
          rw [this]
          exact hr1cr
    · intro _ hdone
      by_cases hus : us = []
      · subst hus
        have : ([] : List String).foldl (stepUnit web g) ((check_link web g s u).1, false) =
            ((check_link web g s u).1, false) := rfl
        rw [this] at hdone ⊢
        exact hu.finIfDone hdone
      · exact hrest.finIfDone hus hdone

/-- Main unit lemma: with the universe closed under reference extraction,
enough fuel, and the invariant, a check unit on a pending registered link
satisfies the unit specification.  The induction is on fuel; the recursive
dispatch of newly created links strictly shrinks the number of unregistered
universe URLs, which keeps the fuel sufficient. -/
theorem unit_spec (web : String → FetchResult) {U P : List String}
    (HwebU : ∀ urlX base ref, base ∈ P → ref ∈ refsOf (web urlX) →
      schemeOK (urljoin base ref) = true → urljoin base ref ∈ U) :
    ∀ fuel s url, Inv U P s → freeCount U s < fuel →
      (∃ l ∈ s.links, l.url = url ∧ l.crawled = false) →
      UnitRes U P s url (check_link web fuel s url) := by
  intro fuel
  induction fuel with
  | zero =>
    intro s url _ hb _
    exact absurd hb (by omega)
  | succ fuel ih =>
    intro s url hInv hb hp
    obtain ⟨l0, hl0mem, hl0url, hl0cr⟩ := hp
    have hfind : findLink s.links url = some l0 := findLink_of_mem hInv.nodupUrls hl0mem hl0url
    have hfin : s.scan_finished = false := by
      cases hfc : s.scan_finished
      · rfl
      · have hcl := hInv.finishedCrawled hfc l0 hl0mem
        rw [hl0cr] at hcl
        exact absurd hcl (by simp)
    set s1 : ScanState := { s with fetchLog := s.fetchLog ++ [url] } with hs1
    have hInv1 : Inv U P s1 := hInv.withFetch _
    have hfin1 : s1.scan_finished = false := hfin
    have hrow1 : ∃ la ∈ s1.links, la.url = url ∧ la.crawled = false := ⟨l0, hl0mem, hl0url, hl0cr⟩
    have hfresh := hInv.freshPending l0 hl0mem hl0cr
    have hpage0 := hInv.pagesP l0 hl0mem
    have hsimple : ∀ rec : ScanLink, rec.url = url → rec.crawled = true →
        ¬(rec.invalid = true ∧ rec.broken = true) → rec.page = l0.page →
        UnitRes U P s url (scanFinishCheck (saveLink s1 rec), false) := by
      intro rec hru hrc hre hrp
      obtain ⟨hCinv, hCreg, hCframe, hCtarget, hCmem, hCfin⟩ :=
        commit_spec rec hInv1 hfin1 hrow1 hru hrc hre (by rw [hrp]; exact hpage0)
      refine ⟨rfl, hCinv, ?_, ?_, hCtarget, ?_, hCfin⟩
      · intro u hr
        rw [hCreg u]
        exact hr
      · intro l hl hne
        exact hCframe l hl hne
      · intro l hl hreg
        rcases hCmem l hl with h | ⟨hmem, _⟩
        · rw [h]
          exact hrc
        · exfalso
          have : registered s l.url = true := registered_iff.mpr ⟨l, hmem, rfl⟩
          rw [hreg] at this
          exact absurd this (by simp)
    cases hweb : web url with
    | invalidSchema =>
      rw [check_link_eq_invalid web fuel s url l0 hfind hfin hweb]
      refine hsimple _ hl0url rfl ?_ rfl
      intro hc
      have := hc.2
      simp only at this
      rw [hfresh.2.1] at this
      exact absurd this (by simp)
    | connectionError =>
      rw [check_link_eq_conn web fuel s url l0 hfind hfin hweb]
      refine hsimple _ hl0url rfl ?_ rfl
      intro hc
      have := hc.1
      simp only at this
      rw [hfresh.1] at this
      exact absurd this (by simp)
    | requestError name desc =>
      rw [check_link_eq_reqerr web fuel s url l0 hfind hfin name desc hweb]
      refine hsimple _ hl0url rfl ?_ rfl
      intro hc
      have := hc.1
      simp only at this
      rw [hfresh.1] at this
      exact absurd this (by simp)
    | response status content =>
      by_cases hrange : 100 ≤ status ∧ status < 400
      · cases hfol : l0.follow with
        | false =>
          rw [check_link_eq_nofollow web fuel s url l0 hfind hfin status content hweb hrange hfol]
          refine hsimple _ hl0url rfl ?_ rfl
          intro hc
          have := hc.1
          simp only at this
          rw [hfresh.1] at this
          exact absurd this (by simp)
        | true =>
          obtain ⟨base, hbP, hpageEq⟩ := hpage0
          rw [check_link_eq_follow web fuel s url l0 hfind hfin status content hweb hrange
            hfol base hpageEq]
          have AL := add_links_spec content s1 base
          rw [if_neg (by rw [AL.noRaise]; simp)]
          have hnewU : ∀ l ∈ (add_links s1 content (some base)).2.1, l.url ∈ U := by
            intro l hl
            rcases AL.sources l hl with ⟨r, hr, he⟩
            have hscheme := AL.schemes l hl
            rw [he] at hscheme
            rw [he]
            refine HwebU url base r hbP ?_ hscheme
            rw [hweb]
            exact hr
          have hInv2 : Inv U P (add_links s1 content (some base)).1 :=
            inv_after_add hInv1 hfin1 hbP hnewU
          have hnodupNew : ((add_links s1 content (some base)).2.1.map (fun l => l.url)).Nodup :=
            AL.nodupNew
          have hpendNew : ∀ v ∈ (add_links s1 content (some base)).2.1.map (fun l => l.url),
              ∃ l ∈ (add_links s1 content (some base)).1.links, l.url = v ∧ l.crawled = false := by
            intro v hv
            rcases List.mem_map.mp hv with ⟨nl, hnl, hnlu⟩
            refine ⟨nl, ?_, hnlu, (AL.fresh nl hnl).1⟩
            rw [AL.linksEq]
            exact List.mem_append_right _ hnl
          have hregs2 : ∀ u, registered s u = true →
              registered (add_links s1 content (some base)).1 u = true := by
            intro u hr
            rcases registered_iff.mp hr with ⟨l, hl, hu⟩
            refine registered_iff.mpr ⟨l, ?_, hu⟩
            rw [AL.linksEq]
            exact List.mem_append_left _ hl
          have hnotNew : ∀ l ∈ s.links,
              l.url ∉ (add_links s1 content (some base)).2.1.map (fun l => l.url) := by
            intro l hl hc
            rcases List.mem_map.mp hc with ⟨nl, hnl, hnlu⟩
            have hun := AL.unreg nl hnl
            have : registered s1 nl.url = true := registered_iff.mpr ⟨l, hl, hnlu.symm⟩
            rw [hun] at this
            exact absurd this (by simp)
          have hbound2 : (add_links s1 content (some base)).2.1.map (fun l => l.url) ≠ [] →
              freeCount U (add_links s1 content (some base)).1 < fuel := by
            intro hne
            have hex : ∃ nl, nl ∈ (add_links s1 content (some base)).2.1 := by
              cases h21 : (add_links s1 content (some base)).2.1 with
              | nil =>
                rw [h21] at hne
                simp at hne
              | cons a t => exact ⟨a, List.mem_cons_self _ _⟩
            obtain ⟨nl0, hnl0⟩ := hex
            have h1 : registered s nl0.url = false := AL.unreg nl0 hnl0
            have h2 : registered (add_links s1 content (some base)).1 nl0.url = true := by
              refine registered_iff.mpr ⟨nl0, ?_, rfl⟩
              rw [AL.linksEq]
              exact List.mem_append_right _ hnl0
            have h3 : nl0.url ∈ U := hnewU nl0 hnl0
            have hlt := freeCount_lt U hregs2 h3 h1 h2
            omega
          have hlist := list_of_unit web fuel (fun sX urlX => ih sX urlX)
            ((add_links s1 content (some base)).2.1.map (fun l => l.url))
            (add_links s1 content (some base)).1 hInv2 hnodupNew hpendNew hbound2
          rw [if_neg (by rw [hlist.noRaise]; simp)]
          have hl0s2 : l0 ∈ (add_links s1 content (some base)).1.links := by
            rw [AL.linksEq]
            exact List.mem_append_left _ hl0mem
          have hl0s3 : l0 ∈ (((add_links s1 content (some base)).2.1.map (fun l => l.url)).foldl
              (stepUnit web fuel) ((add_links s1 content (some base)).1, false)).1.links :=
            hlist.frame l0 hl0s2 (hnotNew l0 hl0mem)
          have hfin3 : (((add_links s1 content (some base)).2.1.map (fun l => l.url)).foldl
              (stepUnit web fuel) ((add_links s1 content (some base)).1, false)).1.scan_finished
                = false := by
            cases hfc : (((add_links s1 content (some base)).2.1.map (fun l => l.url)).foldl
                (stepUnit web fuel)
                ((add_links s1 content (some base)).1, false)).1.scan_finished
            · rfl
            · have hcl := hlist.inv.finishedCrawled hfc l0 hl0s3
              rw [hl0cr] at hcl
              exact absurd hcl (by simp)
          obtain ⟨hCinv, hCreg, hCframe, hCtarget, hCmem, hCfin⟩ :=
            commit_spec { l0 with status_code := some status, crawled := true }
              hlist.inv hfin3 ⟨l0, hl0s3, hl0url, hl0cr⟩ hl0url rfl
              (by
                intro hc
                have := hc.1
                simp only at this
                rw [hfresh.1] at this
                exact absurd this (by simp))
              ⟨base, hbP, hpageEq⟩
          refine ⟨rfl, hCinv, ?_, ?_, hCtarget, ?_, hCfin⟩
          · intro u hr
            rw [hCreg u]
            exact hlist.regMono u (hregs2 u hr)
          · intro l hl hne
            refine hCframe l ?_ hne
            refine hlist.frame l ?_ (hnotNew l hl)
            rw [AL.linksEq]
            exact List.mem_append_left _ hl
          · intro l hl hreg
            rcases hCmem l hl with h | ⟨hmem3, _⟩
            · rw [h]
            · cases hreg2 : registered (add_links s1 content (some base)).1 l.url
              · exact hlist.newCrawled l hmem3 hreg2
              · rcases registered_iff.mp hreg2 with ⟨r1, hr1, hr1u⟩
                rw [AL.linksEq] at hr1
                rcases List.mem_append.mp hr1 with h1 | h1
                · exfalso
                  have : registered s l.url = true := registered_iff.mpr ⟨r1, h1, hr1u⟩
                  rw [hreg] at this
                  exact absurd this (by simp)
                · have hinNew : l.url ∈ (add_links s1 content (some base)).2.1.map
                      (fun l => l.url) := List.mem_map.mpr ⟨r1, h1, hr1u⟩
                  rcases hlist.targets l.url hinNew with ⟨r2, hr2, hr2u, hr2cr⟩
                  have heq : l = r2 := url_inj hlist.inv.nodupUrls hmem3 hr2 hr2u.symm
                  rw [heq]
                  exact hr2cr
      · rw [check_link_eq_broken web fuel s url l0 hfind hfin status content hweb hrange]
        have hf := link_is_broken_fields { l0 with status_code := some status }
        refine hsimple _ ?_ rfl ?_ ?_
        · show (link_is_broken { l0 with status_code := some status }).url = url
          rw [hf.1]
          exact hl0url
        · intro hc
          have hinv := hc.1
          have : (link_is_broken { l0 with status_code := some status }).invalid = l0.invalid :=
            hf.2.2.1
          simp only at hinv
          rw [this, hfresh.1] at hinv
          exact absurd hinv (by simp)
        · show (link_is_broken { l0 with status_code := some status }).page = l0.page
          rw [hf.2.1]

/-! Seeding phase and the crawl master theorem. -/

/-- Joint result of the seed registration loop of Scan.scan_pages. -/
structure SeedRes (s : ScanState) (pages : List String)
    (out : ScanState × List ScanLink) : Prop where
  linksEq : out.1.links = s.links ++ out.2
  finishedEq : out.1.scan_finished = s.scan_finished
  fetchEq : out.1.fetchLog = s.fetchLog
  saveEq : out.1.saveLog = s.saveLog
  writesEq : out.1.finishWrites = s.finishWrites
  fresh : ∀ l ∈ out.2, l.crawled = false ∧ l.invalid = false ∧ l.broken = false ∧
    l.status_code = none ∧ l.error_text = none ∧ l.follow = true
  pagesOf : ∀ l ∈ out.2, ∃ p ∈ pages, l.page = some p ∧ l.url = urljoin p p
  schemes : ∀ l ∈ out.2, schemeOK l.url = true
  unreg : ∀ l ∈ out.2, registered s l.url = false
  nodupNew : (out.2.map (fun l => l.url)).Nodup

theorem seedPages_spec (pages : List String) (s : ScanState) :
    SeedRes s pages (seedPages s pages) := by
  induction pages generalizing s with
  | nil =>
    exact ⟨by simp [seedPages], rfl, rfl, rfl, rfl, by simp [seedPages],
      by simp [seedPages], by simp [seedPages], by simp [seedPages], by simp [seedPages]⟩
  | cons p rest ih =>
    rcases add_link_cases s p p true with hcase | ⟨hcase, hunreg, hscheme⟩
    · have hrec := ih s
      refine ⟨?_, ?_, ?_, ?_, ?_, ?_, ?_, ?_, ?_, ?_⟩ <;>
        simp only [seedPages, hcase] <;>
        first
        | exact hrec.linksEq
        | exact hrec.finishedEq
        | exact hrec.fetchEq
        | exact hrec.saveEq
        | exact hrec.writesEq
        | exact hrec.fresh
        | (intro l hl; rcases hrec.pagesOf l hl with ⟨p1, hp1, he⟩;
           exact ⟨p1, List.mem_cons_of_mem _ hp1, he⟩)
        | exact hrec.schemes
        | exact hrec.unreg
        | exact hrec.nodupNew
    · set nl := mkScanLink (urljoin p p) (some p) true with hnl
      set s1 : ScanState := { s with links := s.links ++ [nl] } with hs1
      have hrec := ih s1
      have hout : seedPages s (p :: rest) =
          ((seedPages s1 rest).1, nl :: (seedPages s1 rest).2) := by
        simp [seedPages, hcase]
      rw [hout]
      have hunregS1 : ∀ l ∈ (seedPages s1 rest).2, registered s l.url = false := by
        intro l hl
        have h1 := hrec.unreg l hl
        cases h : registered s l.url
        · rfl
        · have h2 : registered s1 l.url = true := by
            rw [hs1]; exact registered_mono_append h
          rw [h1] at h2
          exact absurd h2 (by simp)
      refine ⟨?_, hrec.finishedEq, hrec.fetchEq, hrec.saveEq, hrec.writesEq, ?_, ?_, ?_, ?_, ?_⟩
      · simpa [hs1, List.append_assoc] using hrec.linksEq
      · intro l hl
        rcases List.mem_cons.mp hl with h1 | h1
        · subst h1; simp [hnl, mkScanLink]
        · exact hrec.fresh l h1
      · intro l hl
        rcases List.mem_cons.mp hl with h1 | h1
        · subst h1
          exact ⟨p, List.mem_cons_self _ _, by simp [hnl, mkScanLink]⟩
        · rcases hrec.pagesOf l h1 with ⟨p1, hp1, he⟩
          exact ⟨p1, List.mem_cons_of_mem _ hp1, he⟩
      · intro l hl
        rcases List.mem_cons.mp hl with h1 | h1
        · subst h1; exact hscheme
        · exact hrec.schemes l h1
      · intro l hl
        rcases List.mem_cons.mp hl with h1 | h1
        · subst h1; exact hunreg
        · exact hunregS1 l h1
      · refine List.nodup_cons.mpr ⟨?_, hrec.nodupNew⟩
        intro hc
        rcases List.mem_map.mp hc with ⟨l, hl, he⟩
        have h1 := hrec.unreg l hl
        have h2 : registered s1 nl.url = true := by
          refine registered_iff.mpr ⟨nl, ?_, rfl⟩
          rw [hs1]
          exact List.mem_append_right _ (List.mem_singleton_self _)
        have h3 : registered s1 l.url = true := by
          have hbeta : l.url = nl.url := he
          rw [hbeta]
          exact h2
        rw [h1] at h3
        exact absurd h3 (by simp)

/-- Invariant of the freshly seeded scan state. -/
theorem inv_seeded {U P : List String} (pages : List String)
    (Hpages : ∀ p ∈ pages, p ∈ P)
    (Hseeds : ∀ p ∈ pages, schemeOK (urljoin p p) = true → urljoin p p ∈ U) :
    Inv U P (seedPages initScan pages).1 := by
  have SR := seedPages_spec pages initScan
  have hlinks : (seedPages initScan pages).1.links = (seedPages initScan pages).2 := by
    rw [SR.linksEq]
    rfl
  refine ⟨?_, ?_, ?_, ?_, ?_, ?_, ?_, ?_, ?_, ?_, ?_⟩
  · intro l hl
    rw [hlinks] at hl
    rcases SR.pagesOf l hl with ⟨p, hp, _, hurl⟩
    rw [hurl]
    exact Hseeds p hp (by rw [← hurl]; exact SR.schemes l hl)
  · intro l hl
    rw [hlinks] at hl
    rcases SR.pagesOf l hl with ⟨p, hp, hpage, _⟩
    exact ⟨p, Hpages p hp, hpage⟩
  · rw [hlinks]
    exact SR.nodupNew
  · intro hf
    rw [SR.finishedEq] at hf
    exact absurd hf (by simp [initScan])
  · intro _
    rw [SR.writesEq]
    rfl
  · rw [SR.writesEq]
    simp [initScan]
  · intro l hl _
    rw [hlinks] at hl
    have hf := SR.fresh l hl
    exact ⟨hf.2.1, hf.2.2.1, hf.2.2.2.1, hf.2.2.2.2.1⟩
  · intro l hl hc
    rw [hlinks] at hl
    have hf := SR.fresh l hl
    rw [hf.2.1] at hc
    exact absurd hc.1 (by simp)
  · intro l hl
    rw [hlinks] at hl
    exact SR.schemes l hl
  · rw [SR.saveEq]
    simp [initScan]
  · intro u hu
    rw [SR.saveEq] at hu
    simp [initScan] at hu

/-- Master theorem about a full synchronous scan from a fresh state: the run
raises nothing, the invariant holds at the end, and when at least one seed
link was registered, every row ends crawled and the scan ends finished. -/
theorem scan_pages_master (web : String → FetchResult) (U P : List String)
    (pages : List String)
    (HwebU : ∀ urlX base ref, base ∈ P → ref ∈ refsOf (web urlX) →
      schemeOK (urljoin base ref) = true → urljoin base ref ∈ U)
    (Hpages : ∀ p ∈ pages, p ∈ P)
    (Hseeds : ∀ p ∈ pages, schemeOK (urljoin p p) = true → urljoin p p ∈ U)
    (fuel : Nat) (hfuel : U.length < fuel) :
    (scan_pages web fuel initScan pages).2 = false ∧
    Inv U P (scan_pages web fuel initScan pages).1 ∧
    ((seedPages initScan pages).2 ≠ [] →
      (∀ l ∈ (scan_pages web fuel initScan pages).1.links, l.crawled = true) ∧
      (scan_pages web fuel initScan pages).1.scan_finished = true) := by
  have SR := seedPages_spec pages initScan
  have hInv1 : Inv U P (seedPages initScan pages).1 := inv_seeded pages Hpages Hseeds
  have hlinks1 : (seedPages initScan pages).1.links = (seedPages initScan pages).2 := by
    rw [SR.linksEq]
    rfl
  have hpend : ∀ u ∈ (seedPages initScan pages).2.map (fun l => l.url),
      ∃ l ∈ (seedPages initScan pages).1.links, l.url = u ∧ l.crawled = false := by
    intro u hu
    rcases List.mem_map.mp hu with ⟨l, hl, he⟩
    exact ⟨l, by rw [hlinks1]; exact hl, he, (SR.fresh l hl).1⟩
  have hbound : freeCount U (seedPages initScan pages).1 < fuel :=
    Nat.lt_of_le_of_lt (List.length_filter_le _ _) hfuel
  have hlist := list_of_unit web fuel (unit_spec web HwebU fuel)
    ((seedPages initScan pages).2.map (fun l => l.url)) (seedPages initScan pages).1
    hInv1 SR.nodupNew hpend (fun _ => hbound)
  have heq : scan_pages web fuel initScan pages =
      ((seedPages initScan pages).2.map (fun l => l.url)).foldl (stepUnit web fuel)
        ((seedPages initScan pages).1, false) := rfl
  rw [heq]
  refine ⟨hlist.noRaise, hlist.inv, ?_⟩
  intro hne
  have hall : ∀ l ∈ (((seedPages initScan pages).2.map (fun l => l.url)).foldl
      (stepUnit web fuel) ((seedPages initScan pages).1, false)).1.links,
      l.crawled = true := by
    intro l hl
    cases hreg : registered (seedPages initScan pages).1 l.url
    · exact hlist.newCrawled l hl hreg
    · rcases registered_iff.mp hreg with ⟨r, hr, hru⟩
      rw [hlinks1] at hr
      have hin : l.url ∈ (seedPages initScan pages).2.map (fun l => l.url) :=
        List.mem_map.mpr ⟨r, hr, hru⟩
      rcases hlist.targets l.url hin with ⟨r2, hr2, hr2u, hr2cr⟩
      have heq2 : l = r2 := url_inj hlist.inv.nodupUrls hl hr2 hr2u.symm
      rw [heq2]
      exact hr2cr
  refine ⟨hall, ?_⟩
  refine hlist.finIfDone ?_ (non_scanned_empty_iff.mpr hall)
  intro hc
  exact hne (List.map_eq_nil_iff.mp hc)

/-! General lemmas about a unit, without crawl-level hypotheses. -/

theorem check_link_eq_followP (web : String → FetchResult) (fuel : Nat) (s : ScanState)
    (url : String) (l0 : ScanLink) (hfind : findLink s.links url = some l0)
    (hfin : s.scan_finished = false) (status : Int) (content : List String)
    (hweb : web url = .response status content)
    (hrange : 100 ≤ status ∧ status < 400) (hfol : l0.follow = true) :
    check_link web (fuel+1) s url =
      (if (add_links { s with fetchLog := s.fetchLog ++ [url] } content l0.page).2.2 then
        ((add_links { s with fetchLog := s.fetchLog ++ [url] } content l0.page).1, true)
       else
        if (((add_links { s with fetchLog := s.fetchLog ++ [url] } content l0.page).2.1.map
              (fun l => l.url)).foldl (stepUnit web fuel)
              ((add_links { s with fetchLog := s.fetchLog ++ [url] } content l0.page).1, false)).2 then
          (((add_links { s with fetchLog := s.fetchLog ++ [url] } content l0.page).2.1.map
              (fun l => l.url)).foldl (stepUnit web fuel)
              ((add_links { s with fetchLog := s.fetchLog ++ [url] } content l0.page).1, false))
        else
          (scanFinishCheck (saveLink
            (((add_links { s with fetchLog := s.fetchLog ++ [url] } content l0.page).2.1.map
              (fun l => l.url)).foldl (stepUnit web fuel)
              ((add_links { s with fetchLog := s.fetchLog ++ [url] } content l0.page).1, false)).1
            { l0 with status_code := some status, crawled := true }), false)) := by
  simp only [check_link, hfind]
  rw [if_neg (by simp [hfin])]
  simp only [hweb, hfol, hrange, and_self, if_true, stepUnit]
  rfl

theorem add_links_none (urls : List String) (s : ScanState) :
    (add_links s urls none).1 = s ∧ (add_links s urls none).2.1 = [] := by
  induction urls with
  | nil => simp [add_links]
  | cons u rest ih =>
    by_cases h : u = "" || strStartsWith u "#"
    · have he : add_link s u none false = .ok (s, none) := by
        unfold add_link
        simp [h]
      simp only [add_links, he]
      exact ih
    · have he : add_link s u none false = .error () := by
        unfold add_link
        simp [h]
      simp [add_links, he]

theorem registered_saveLink (s : ScanState) (k : ScanLink) (u : String) :
    registered (saveLink s k) u = registered s u :=
  registered_eq_of_links_map (saveLink_map_url s k) u

theorem registered_scanFinishCheck (s : ScanState) (u : String) :
    registered (scanFinishCheck s) u = registered s u :=
  registered_eq_of_links_map (by rw [scanFinishCheck_links]) u

/-- Registration only grows along any unit, whatever path it takes. -/
theorem check_link_reg_mono (web : String → FetchResult) :
    ∀ fuel s url u, registered s u = true → registered (check_link web fuel s url).1 u = true := by
  intro fuel
  induction fuel with
  | zero => intro s url u h; exact h
  | succ fuel ih =>
    have ihfold : ∀ (urls : List String) (acc : ScanState × Bool) (u : String),
        registered acc.1 u = true →
        registered (urls.foldl (stepUnit web fuel) acc).1 u = true := by
      intro urls
      induction urls with
      | nil => intro acc u h; exact h
      | cons v vs ihl =>
        intro acc u h
        rw [List.foldl_cons]
        apply ihl
        unfold stepUnit
        by_cases hacc : acc.2
        · simpa [hacc] using h
        · simp only [hacc, Bool.false_eq_true, if_false]
          exact ih acc.1 v u h
    intro s url u h
    rcases hfind : findLink s.links url with _ | l0
    · simpa [check_link, hfind] using h
    · cases hfc : s.scan_finished
      · have hl0mem : l0 ∈ s.links := List.mem_of_find?_eq_some hfind
        have hs1 : registered { s with fetchLog := s.fetchLog ++ [url] } u = registered s u := rfl
        cases hweb : web url with
        | invalidSchema =>
          rw [check_link_eq_invalid web fuel s url l0 hfind hfc hweb]
          rw [registered_scanFinishCheck, registered_saveLink]
          exact h
        | connectionError =>
          rw [check_link_eq_conn web fuel s url l0 hfind hfc hweb]
          rw [registered_scanFinishCheck, registered_saveLink]
          exact h
        | requestError name desc =>
          rw [check_link_eq_reqerr web fuel s url l0 hfind hfc name desc hweb]
          rw [registered_scanFinishCheck, registered_saveLink]
          exact h
        | response status content =>
          by_cases hrange : 100 ≤ status ∧ status < 400
          · cases hfol : l0.follow with
            | false =>
              rw [check_link_eq_nofollow web fuel s url l0 hfind hfc status content hweb
                hrange hfol]
              rw [registered_scanFinishCheck, registered_saveLink]
              exact h
            | true =>
              rw [check_link_eq_followP web fuel s url l0 hfind hfc status content hweb
                hrange hfol]
              have hreg2 : registered (add_links { s with fetchLog := s.fetchLog ++ [url] }
                  content l0.page).1 u = true := by
                rcases hpage : l0.page with _ | base
                · rw [(add_links_none content _).1]
                  exact h
                · have AL := add_links_spec content { s with fetchLog := s.fetchLog ++ [url] } base
                  rcases registered_iff.mp h with ⟨l, hl, hu⟩
                  refine registered_iff.mpr ⟨l, ?_, hu⟩
                  rw [AL.linksEq]
                  exact List.mem_append_left _ hl
              split
              · exact hreg2
              · split
                · exact ihfold _ _ u hreg2
                · rw [registered_scanFinishCheck, registered_saveLink]
                  exact ihfold _ _ u hreg2
          · rw [check_link_eq_broken web fuel s url l0 hfind hfc status content hweb hrange]
            rw [registered_scanFinishCheck, registered_saveLink]
            exact h
      · simpa [check_link, hfind, hfc] using h

/-- Rows never reach invalid when every stored URL is schemed http or https
and the HTTP client raises scheme errors only for other schemes.  Holds on
every path of a unit, with no further hypotheses. -/
theorem check_link_inv10 (web : String → FetchResult)
    (Horacle : ∀ u, web u = .invalidSchema → schemeOK u = false) :
    ∀ fuel s url, (∀ l ∈ s.links, l.invalid = false ∧ schemeOK l.url = true) →
      ∀ l ∈ (check_link web fuel s url).1.links, l.invalid = false ∧ schemeOK l.url = true := by
  intro fuel
  induction fuel with
  | zero => intro s url h; exact h
  | succ fuel ih =>
    have ihfold : ∀ (urls : List String) (acc : ScanState × Bool),
        (∀ l ∈ acc.1.links, l.invalid = false ∧ schemeOK l.url = true) →
        ∀ l ∈ (urls.foldl (stepUnit web fuel) acc).1.links,
          l.invalid = false ∧ schemeOK l.url = true := by
      intro urls
      induction urls with
      | nil => intro acc h; exact h
      | cons v vs ihl =>
        intro acc h
        rw [List.foldl_cons]
        apply ihl
        unfold stepUnit
        by_cases hacc : acc.2
        · simpa [hacc] using h
        · simp only [hacc, Bool.false_eq_true, if_false]
          exact ih acc.1 v h
    have hsave : ∀ (sA : ScanState) (rec : ScanLink),
        (∀ l ∈ sA.links, l.invalid = false ∧ schemeOK l.url = true) →
        rec.invalid = false → schemeOK rec.url = true →
        ∀ l ∈ (scanFinishCheck (saveLink sA rec)).links,
          l.invalid = false ∧ schemeOK l.url = true := by
      intro sA rec h hri hrs l hl
      rw [scanFinishCheck_links, saveLink_links] at hl
      rcases List.mem_map.mp hl with ⟨l1, hl1, he⟩
      by_cases hc : l1.url = rec.url
      · rw [← he]
        simp only [hc, if_true]
        exact ⟨hri, hrs⟩
      · rw [← he]
        simp only [hc, if_false]
        exact h l1 hl1
    intro s url h
    rcases hfind : findLink s.links url with _ | l0
    · simpa [check_link, hfind] using h
    · have hl0mem : l0 ∈ s.links := List.mem_of_find?_eq_some hfind
      have hl0url : l0.url = url := by
        have := List.find?_some hfind
        simpa using this
      have h10 := h l0 hl0mem
      have h1 : ∀ l ∈ ({ s with fetchLog := s.fetchLog ++ [url] } : ScanState).links,
          l.invalid = false ∧ schemeOK l.url = true := h
      cases hfc : s.scan_finished
      · cases hweb : web url with
        | invalidSchema =>
          exfalso
          have hof := Horacle url hweb
          rw [← hl0url] at hof
          rw [h10.2] at hof
          exact absurd hof (by simp)
        | connectionError =>
          rw [check_link_eq_conn web fuel s url l0 hfind hfc hweb]
          exact hsave _ _ h1 h10.1 h10.2
        | requestError name desc =>
          rw [check_link_eq_reqerr web fuel s url l0 hfind hfc name desc hweb]
          exact hsave _ _ h1 h10.1 h10.2
        | response status content =>
          by_cases hrange : 100 ≤ status ∧ status < 400
          · cases hfol : l0.follow with
            | false =>
              rw [check_link_eq_nofollow web fuel s url l0 hfind hfc status content hweb
                hrange hfol]
              exact hsave _ _ h1 h10.1 h10.2
            | true =>
              rw [check_link_eq_followP web fuel s url l0 hfind hfc status content hweb
                hrange hfol]
              have h2 : ∀ l ∈ (add_links { s with fetchLog := s.fetchLog ++ [url] }
                  content l0.page).1.links, l.invalid = false ∧ schemeOK l.url = true := by
                rcases hpage : l0.page with _ | base
                · rw [(add_links_none content _).1]
                  exact h1
                · have AL := add_links_spec content { s with fetchLog := s.fetchLog ++ [url] } base
                  intro l hl
                  rw [AL.linksEq] at hl
                  rcases List.mem_append.mp hl with hm | hm
                  · exact h1 l hm
                  · exact ⟨(AL.fresh l hm).2.1, AL.schemes l hm⟩
              split
              · exact h2
              · split
                · exact ihfold _ _ h2
                · exact hsave _ _ (ihfold _ _ h2) h10.1 (by simpa using h10.2)
          · rw [check_link_eq_broken web fuel s url l0 hfind hfc status content hweb hrange]
            have hf := link_is_broken_fields { l0 with status_code := some status }
            refine hsave _ _ h1 ?_ ?_
            · show (link_is_broken { l0 with status_code := some status }).invalid = false
              rw [hf.2.2.1]
              exact h10.1
            · show schemeOK (link_is_broken { l0 with status_code := some status }).url = true
              rw [hf.1]
              exact h10.2
      · simpa [check_link, hfind, hfc] using h

theorem stepUnit_fold_reg_mono (web : String → FetchResult) (fuel : Nat) :
    ∀ (urls : List String) (acc : ScanState × Bool) (u : String),
      registered acc.1 u = true →
      registered (urls.foldl (stepUnit web fuel) acc).1 u = true := by
  intro urls
  induction urls with
  | nil => intro acc u h; exact h
  | cons v vs ihl =>
    intro acc u h
    rw [List.foldl_cons]
    apply ihl
    unfold stepUnit
    by_cases hacc : acc.2
    · simpa [hacc] using h
    · simp only [hacc, Bool.false_eq_true, if_false]
      exact check_link_reg_mono web fuel acc.1 v u h

theorem stepUnit_fold_inv10 (web : String → FetchResult)
    (Horacle : ∀ u, web u = .invalidSchema → schemeOK u = false) (fuel : Nat) :
    ∀ (urls : List String) (acc : ScanState × Bool),
      (∀ l ∈ acc.1.links, l.invalid = false ∧ schemeOK l.url = true) →
      ∀ l ∈ (urls.foldl (stepUnit web fuel) acc).1.links,
        l.invalid = false ∧ schemeOK l.url = true := by
  intro urls
  induction urls with
  | nil => intro acc h; exact h
  | cons v vs ihl =>
    intro acc h
    rw [List.foldl_cons]
    apply ihl
    unfold stepUnit
    by_cases hacc : acc.2
    · simpa [hacc] using h
    · simp only [hacc, Bool.false_eq_true, if_false]
      exact check_link_inv10 web Horacle fuel acc.1 v h

/-- The record written by link.save is present in the resulting row list
whenever a row with its url was registered. -/
theorem saved_mem (sA : ScanState) (rec : ScanLink) (h : registered sA rec.url = true) :
    { rec with domainname := (urlsplitCore rec.url).netloc } ∈
      (scanFinishCheck (saveLink sA rec)).links := by
  rw [scanFinishCheck_links, saveLink_links]
  rcases registered_iff.mp h with ⟨l, hl, hu⟩
  exact List.mem_map.mpr ⟨l, hl, by simp [hu]⟩

/-- Reason text produced by link_is_broken for a stored numeric status. -/
theorem link_is_broken_error (l : ScanLink) (code : Int) (h : l.status_code = some code) :
    (link_is_broken l).error_text = some (match httpStatusPhrase code with
      | some p => p
      | none =>
        if 400 ≤ code ∧ code < 500 then "Client error"
        else if 500 ≤ code ∧ code < 600 then "Server Error"
        else "Error: Unknown HTTP Status Code \x27" ++ toString code ++ "\x27") := by
  unfold link_is_broken
  rw [h]
  rcases hph : httpStatusPhrase code with _ | p
  · by_cases h1 : 400 ≤ code ∧ code < 500
    · simp [hph, h1]
    · by_cases h2 : 500 ≤ code ∧ code < 600
      · simp [hph, h1, h2]
      · simp [hph, h1, h2]
  · simp [hph]

/-! Concrete demonstration web used to instantiate the crawl theorems. -/

/-- Two-page demonstration site: the root references /b, which is a 404. -/
def demoWeb : String → FetchResult := fun u =>
  if u = "http://a/" then .response 200 ["/b"]
  else if u = "http://a/b" then .response 404 []
  else .connectionError

/-- Universe of URLs reachable in the demonstration site. -/
def demoU : List String := ["http://a/", "http://a/b"]

/-- Page bases of the demonstration site. -/
def demoP : List String := ["http://a/"]

/-- Seed pages of the demonstration site. -/
def demoPages : List String := ["http://a/"]

theorem demoWeb_refs (u : String) : refsOf (demoWeb u) = ["/b"] ∨ refsOf (demoWeb u) = [] := by
  unfold demoWeb
  by_cases h1 : u = "http://a/"
  · left; simp [h1, refsOf]
  · by_cases h2 : u = "http://a/b"
    · right; simp [h1, h2, refsOf]
    · right; simp [h1, h2, refsOf]

theorem demoWeb_closure : ∀ urlX base ref, base ∈ demoP → ref ∈ refsOf (demoWeb urlX) →
    schemeOK (urljoin base ref) = true → urljoin base ref ∈ demoU := by
  intro urlX base ref hb hr _
  have hbase : base = "http://a/" := by simpa [demoP] using hb
  subst hbase
  rcases demoWeb_refs urlX with h | h
  · rw [h] at hr
    have hrb : ref = "/b" := by simpa using hr
    subst hrb
    decide
  · rw [h] at hr
    cases hr

theorem demoPages_P : ∀ p ∈ demoPages, p ∈ demoP := by decide

theorem demoSeeds_U : ∀ p ∈ demoPages, schemeOK (urljoin p p) = true → urljoin p p ∈ demoU := by
  decide

theorem demoSeeds_ne : (seedPages initScan demoPages).2 ≠ [] := by decide

theorem demoHoracle : ∀ u, demoWeb u = .invalidSchema → schemeOK u = false := by
  intro u h
  unfold demoWeb at h
  by_cases h1 : u = "http://a/"
  · simp [h1] at h
  · by_cases h2 : u = "http://a/b"
    · simp [h1, h2] at h
    · simp [h1, h2] at h

/-! Claim C1. -/

/-- State with one pending follow link whose originating page was deleted. -/
def c1CrashState : ScanState :=
  { initScan with links := [mkScanLink "http://a/" none true] }

/-- C1 counterexample: a response is received (HTTP 200 with one extractable
reference), yet because the link has follow=true and a null page, the base
URL computation in Scan.add_link raises and the unit aborts: the link is
never marked crawled and no status_code is recorded, against the claim that
every responded check is recorded. -/
theorem c1_counterexample :
    (check_link (fun _ => .response 200 ["/x"]) 5 c1CrashState "http://a/").2 = true ∧
    ∀ l ∈ (check_link (fun _ => .response 200 ["/x"]) 5 c1CrashState "http://a/").1.links,
      l.crawled = false ∧ l.status_code = none ∧ l.broken = false := by
  decide

/-- C1 (amended): for every link check of a not yet processed link in which
an HTTP response is received, provided the unit does not abort with an
exception raised while registering extracted references (possible only for a
follow link whose originating page reference is null), the link is recorded
with status_code equal to the response status and: broken=false when the
status lies in [100,400); broken=true otherwise, with error_text equal to the
standard reason phrase when the status is a recognized standard code,
otherwise Client error on [400,500), Server Error on [500,600), and an
unknown-status message for any status outside [400,600). -/
theorem c1_response_classification (web : String → FetchResult) (fuel : Nat) (s : ScanState)
    (url : String) (l0 : ScanLink) (status : Int) (content : List String)
    (hfind : findLink s.links url = some l0)
    (hfin : s.scan_finished = false)
    (hweb : web url = .response status content)
    (hbroken0 : l0.broken = false)
    (hnoraise : (check_link web (fuel+1) s url).2 = false) :
    ∃ l ∈ (check_link web (fuel+1) s url).1.links,
      l.url = url ∧ l.crawled = true ∧ l.status_code = some status ∧
      ((100 ≤ status ∧ status < 400) → l.broken = false) ∧
      (¬(100 ≤ status ∧ status < 400) →
        l.broken = true ∧
        l.error_text = some (match httpStatusPhrase status with
          | some p => p
          | none =>
            if 400 ≤ status ∧ status < 500 then "Client error"
            else if 500 ≤ status ∧ status < 600 then "Server Error"
            else "Error: Unknown HTTP Status Code \x27" ++ toString status ++ "\x27")) := by
  have hl0mem : l0 ∈ s.links := List.mem_of_find?_eq_some hfind
  have hl0url : l0.url = url := by
    have := List.find?_some hfind
    simpa using this
  have hreg : registered s url = true := registered_iff.mpr ⟨l0, hl0mem, hl0url⟩
  have hreg1 : registered { s with fetchLog := s.fetchLog ++ [url] } url = true := hreg
  by_cases hrange : 100 ≤ status ∧ status < 400
  · cases hfol : l0.follow with
    | false =>
      rw [check_link_eq_nofollow web fuel s url l0 hfind hfin status content hweb hrange hfol]
      have hm := saved_mem { s with fetchLog := s.fetchLog ++ [url] }
        { l0 with status_code := some status, crawled := true }
        (by show registered _ l0.url = true; rw [hl0url]; exact hreg1)
      refine ⟨_, hm, ?_, ?_, ?_, ?_, ?_⟩
      · exact hl0url
      · rfl
      · rfl
      · intro _
        exact hbroken0
      · intro hn
        exact absurd hrange hn
    | true =>
      rw [check_link_eq_followP web fuel s url l0 hfind hfin status content hweb hrange hfol]
        at hnoraise ⊢
      rcases hpage : l0.page with _ | base
      · rw [hpage] at hnoraise
        cases hr : (add_links { s with fetchLog := s.fetchLog ++ [url] } content none).2.2
        · rw [(add_links_none content _).1, (add_links_none content _).2]
          simp only [List.map_nil, List.foldl_nil, Bool.false_eq_true, if_false]
          have hm := saved_mem { s with fetchLog := s.fetchLog ++ [url] }
            { l0 with status_code := some status, crawled := true, page := none }
            (by show registered _ l0.url = true; rw [hl0url]; exact hreg1)
          refine ⟨_, hm, ?_, ?_, ?_, ?_, ?_⟩
          · exact hl0url
          · rfl
          · rfl
          · intro _
            exact hbroken0
          · intro hn
            exact absurd hrange hn
        · exfalso
          simp [hr] at hnoraise
      · rw [hpage] at hnoraise
        have AL := add_links_spec content { s with fetchLog := s.fetchLog ++ [url] } base
        rw [if_neg (by rw [AL.noRaise]; simp)] at hnoraise ⊢
        cases hOUT2 : (((add_links { s with fetchLog := s.fetchLog ++ [url] } content
            (some base)).2.1.map (fun l => l.url)).foldl (stepUnit web fuel)
            ((add_links { s with fetchLog := s.fetchLog ++ [url] } content (some base)).1,
              false)).2
        · rw [if_neg (by simp [hOUT2])]
          have hreg2 : registered (add_links { s with fetchLog := s.fetchLog ++ [url] } content
              (some base)).1 url = true := by
            rcases registered_iff.mp hreg1 with ⟨l, hl, hu⟩
            refine registered_iff.mpr ⟨l, ?_, hu⟩
            rw [AL.linksEq]
            exact List.mem_append_left _ hl
          have hreg3 := stepUnit_fold_reg_mono web fuel
            ((add_links { s with fetchLog := s.fetchLog ++ [url] } content
              (some base)).2.1.map (fun l => l.url))
            ((add_links { s with fetchLog := s.fetchLog ++ [url] } content (some base)).1, false)
            url hreg2
          have hm := saved_mem
            ((((add_links { s with fetchLog := s.fetchLog ++ [url] } content
              (some base)).2.1.map (fun l => l.url)).foldl (stepUnit web fuel)
              ((add_links { s with fetchLog := s.fetchLog ++ [url] } content (some base)).1,
                false)).1)
            { l0 with status_code := some status, crawled := true, page := some base }
            (by show registered _ l0.url = true; rw [hl0url]; exact hreg3)
          refine ⟨_, hm, ?_, ?_, ?_, ?_, ?_⟩
          · exact hl0url
          · rfl
          · rfl
          · intro _
            exact hbroken0
          · intro hn
            exact absurd hrange hn
        · exfalso
          simp [hOUT2] at hnoraise
  · rw [check_link_eq_broken web fuel s url l0 hfind hfin status content hweb hrange]
    have hf := link_is_broken_fields { l0 with status_code := some status }
    have hsc : ({ l0 with status_code := some status } : ScanLink).status_code = some status := rfl
    have herr := link_is_broken_error { l0 with status_code := some status } status hsc
    have hm := saved_mem { s with fetchLog := s.fetchLog ++ [url] }
      { link_is_broken { l0 with status_code := some status } with crawled := true }
      (by
        show registered _ (link_is_broken { l0 with status_code := some status }).url = true
        rw [hf.1]
        show registered _ l0.url = true
        rw [hl0url]
        exact hreg1)
    refine ⟨_, hm, ?_, ?_, ?_, ?_, ?_⟩
    · show (link_is_broken { l0 with status_code := some status }).url = url
      rw [hf.1]
      exact hl0url
    · rfl
    · show (link_is_broken { l0 with status_code := some status }).status_code = some status
      rw [hf.2.2.2.2.2.2]
    · intro hc
      exact absurd hc hrange
    · intro _
      constructor
      · show (link_is_broken { l0 with status_code := some status }).broken = true
        exact hf.2.2.2.1
      · show (link_is_broken { l0 with status_code := some status }).error_text = _
        exact herr

/-- State with one pending plain link for the C1 witness. -/
def c1WitState : ScanState :=
  { initScan with links := [mkScanLink "http://a/b" (some "http://a/") false] }

/-- C1 witness: the theorem applied to the demonstration web at the 404 page
yields the recorded Not Found outcome. -/
theorem c1_witness :
    ∃ l ∈ (check_link demoWeb 1 c1WitState "http://a/b").1.links,
      l.url = "http://a/b" ∧ l.crawled = true ∧ l.status_code = some 404 ∧
      ((100 ≤ (404 : Int) ∧ (404 : Int) < 400) → l.broken = false) ∧
      (¬(100 ≤ (404 : Int) ∧ (404 : Int) < 400) →
        l.broken = true ∧
        l.error_text = some (match httpStatusPhrase 404 with
          | some p => p
          | none =>
            if 400 ≤ (404 : Int) ∧ (404 : Int) < 500 then "Client error"
            else if 500 ≤ (404 : Int) ∧ (404 : Int) < 600 then "Server Error"
            else "Error: Unknown HTTP Status Code \x27" ++ toString (404 : Int) ++ "\x27")) :=
  c1_response_classification demoWeb 0 c1WitState "http://a/b"
    (mkScanLink "http://a/b" (some "http://a/") false) 404 []
    (by decide) (by decide) (by decide) (by decide) (by decide)

/-! Claim C2. -/

/-- State holding one registered link, used against claim C2. -/
def c2State : ScanState :=
  { initScan with links := [mkScanLink "http://a/b" (some "http://a/") false] }

/-- C2 counterexample: registering a reference that resolves to an already
registered URL returns none, not the existing link handle as the claim
states — the existing row is present yet the returned handle is empty. -/
theorem c2_counterexample :
    registered c2State "http://a/b" = true ∧
    urljoin "http://a/" "/b" = "http://a/b" ∧
    add_link c2State "/b" (some "http://a/") false = .ok (c2State, none) :=
  ⟨by decide, by decide, rfl⟩

/-- C2 (amended): for every scan and reference resolving to a URL already
registered in that scan, registration is a no-op on stored state — at most
one ScanLink row ever exists per (scan, URL) — and yields nothing (None),
rather than returning the existing link handle. -/
theorem c2_dedup_noop (s : ScanState) (url base : String) (follow : Bool)
    (h : registered s (urljoin base url) = true) :
    add_link s url (some base) follow = .ok (s, none) := by
  unfold add_link
  by_cases h1 : url = "" || strStartsWith url "#"
  · simp [h1]
  · simp only [h1, Bool.false_eq_true, if_false]
    by_cases h2 : (urlsplitCore (urljoin base url)).scheme = "http" ∨
        (urlsplitCore (urljoin base url)).scheme = "https"
    · simp [h2, h]
    · simp [h2]

/-- C2 witness: the amended theorem applied to the concrete one-row state. -/
theorem c2_witness : add_link c2State "/b" (some "http://a/") false = .ok (c2State, none) :=
  c2_dedup_noop c2State "/b" "http://a/" false (by decide)

/-! Claim C4. -/

/-- C4: registration rejects empty and fragment references and non-http(s)
resolutions without touching stored state, stores exactly the standard
relative resolution of an accepted reference against the owning page URL,
and resolves reference /b on page https://site.example/a to
https://site.example/b. -/
theorem c4_resolver (s : ScanState) (url base : String) (follow : Bool)
    (page : Option String) :
    ((url = "" ∨ strStartsWith url "#" = true) → add_link s url page follow = .ok (s, none)) ∧
    (schemeOK (urljoin base url) = false → add_link s url (some base) follow = .ok (s, none)) ∧
    (∀ s2 l, add_link s url (some base) follow = .ok (s2, some l) →
      l.url = urljoin base url ∧ schemeOK l.url = true ∧
      s2.links = s.links ++ [l] ∧ registered s l.url = false) ∧
    urljoin "https://site.example/a" "/b" = "https://site.example/b" := by
  refine ⟨?_, ?_, ?_, by decide⟩
  · intro h
    unfold add_link
    have h1 : (url = "" || strStartsWith url "#") = true := by
      rcases h with h | h
      · simp [h]
      · simp [h]
    simp [h1]
  · intro h
    unfold add_link
    by_cases h1 : url = "" || strStartsWith url "#"
    · simp [h1]
    · have h2 : ¬((urlsplitCore (urljoin base url)).scheme = "http" ∨
          (urlsplitCore (urljoin base url)).scheme = "https") := by
        intro hc
        have : schemeOK (urljoin base url) = true := by
          simp only [schemeOK, Bool.or_eq_true, decide_eq_true_eq]
          exact hc
        rw [h] at this
        exact absurd this (by simp)
      simp [h1, h2]
  · intro s2 l hok
    rcases add_link_cases s url base follow with hcase | ⟨hcase, hunreg, hscheme⟩
    · rw [hcase] at hok
      have hpair := Except.ok.inj hok
      have hnone : (none : Option ScanLink) = some l := congrArg Prod.snd hpair
      exact absurd hnone (by simp)
    · rw [hcase] at hok
      have hpair := Except.ok.inj hok
      have hs2 : ({ s with
          links := s.links ++ [mkScanLink (urljoin base url) (some base) follow] } :
            ScanState) = s2 := congrArg Prod.fst hpair
      have hl : some (mkScanLink (urljoin base url) (some base) follow) = some l :=
        congrArg Prod.snd hpair
      have hl2 : mkScanLink (urljoin base url) (some base) follow = l := Option.some.inj hl
      refine ⟨?_, ?_, ?_, ?_⟩
      · rw [← hl2]
        rfl
      · rw [← hl2]
        exact hscheme
      · rw [← hs2, ← hl2]
      · rw [← hl2]
        exact hunreg

/-- C4 witness: the theorem applied at concrete inputs — a fragment
reference is dropped, and the scenario resolution holds. -/
theorem c4_witness :
    add_link initScan "#top" (some "https://site.example/a") false = .ok (initScan, none) ∧
    urljoin "https://site.example/a" "/b" = "https://site.example/b" :=
  ⟨(c4_resolver initScan "#top" "https://site.example/a" false none).1 (Or.inr (by decide)),
   (c4_resolver initScan "#top" "https://site.example/a" false none).2.2.2⟩

/-! Claim C9. -/

/-- C9: evaluating Scan.add_link with a non-trivial reference and no
originating page raises (AttributeError: the Scan instance has no attribute
named scan), instead of resolving against the site root URL as specified —
the claim is right and the code line base_url = page.full_url if page else
self.scan.root_url is a slip for self.site.root_url. -/
theorem c9_pageless_raises : add_link initScan "/about" none false = .error () := rfl

/-! Claim C5. -/

/-- C5: for every check of a fresh link whose fetch raises a transport
failure instead of returning a response: an unsupported or unparseable
scheme marks invalid=true with broken left false and reason Link was
invalid; a connection failure marks broken=true with the connection reason;
any other request exception marks broken=true with a reason built from the
exception type name and description; in all three cases the link ends
crawled=true and status_code stays unset. -/
theorem c5_transport_failures (web : String → FetchResult) (fuel : Nat) (s : ScanState)
    (url : String) (l0 : ScanLink)
    (hfind : findLink s.links url = some l0)
    (hfin : s.scan_finished = false)
    (hfresh : l0.broken = false ∧ l0.invalid = false ∧ l0.status_code = none) :
    (web url = .invalidSchema →
      ∃ l ∈ (check_link web (fuel+1) s url).1.links,
        l.url = url ∧ l.invalid = true ∧ l.broken = false ∧ l.crawled = true ∧
        l.status_code = none ∧ l.error_text = some "Link was invalid") ∧
    (web url = .connectionError →
      ∃ l ∈ (check_link web (fuel+1) s url).1.links,
        l.url = url ∧ l.broken = true ∧ l.invalid = false ∧ l.crawled = true ∧
        l.status_code = none ∧
        l.error_text = some "There was an error connecting to this site") ∧
    (∀ name desc, web url = .requestError name desc →
      ∃ l ∈ (check_link web (fuel+1) s url).1.links,
        l.url = url ∧ l.broken = true ∧ l.invalid = false ∧ l.crawled = true ∧
        l.status_code = none ∧ l.error_text = some (name ++ ": " ++ desc)) := by
  have hl0mem : l0 ∈ s.links := List.mem_of_find?_eq_some hfind
  have hl0url : l0.url = url := by
    have := List.find?_some hfind
    simpa using this
  have hreg1 : registered { s with fetchLog := s.fetchLog ++ [url] } url = true :=
    registered_iff.mpr ⟨l0, hl0mem, hl0url⟩
  refine ⟨?_, ?_, ?_⟩
  · intro hweb
    rw [check_link_eq_invalid web fuel s url l0 hfind hfin hweb]
    have hm := saved_mem { s with fetchLog := s.fetchLog ++ [url] }
      { l0 with invalid := true, error_text := some "Link was invalid", crawled := true }
      (by show registered _ l0.url = true; rw [hl0url]; exact hreg1)
    refine ⟨_, hm, ?_, ?_, ?_, ?_, ?_, ?_⟩
    · exact hl0url
    · rfl
    · exact hfresh.1
    · rfl
    · exact hfresh.2.2
    · rfl
  · intro hweb
    rw [check_link_eq_conn web fuel s url l0 hfind hfin hweb]
    have hm := saved_mem { s with fetchLog := s.fetchLog ++ [url] }
      { l0 with broken := true, error_text := some "There was an error connecting to this site", crawled := true }
      (by show registered _ l0.url = true; rw [hl0url]; exact hreg1)
    refine ⟨_, hm, ?_, ?_, ?_, ?_, ?_, ?_⟩
    · exact hl0url
    · rfl
    · exact hfresh.2.1
    · rfl
    · exact hfresh.2.2
    · rfl
  · intro name desc hweb
    rw [check_link_eq_reqerr web fuel s url l0 hfind hfin name desc hweb]
    have hm := saved_mem { s with fetchLog := s.fetchLog ++ [url] }
      { l0 with broken := true, error_text := some (name ++ ": " ++ desc), crawled := true }
      (by show registered _ l0.url = true; rw [hl0url]; exact hreg1)
    refine ⟨_, hm, ?_, ?_, ?_, ?_, ?_, ?_⟩
    · exact hl0url
    · rfl
    · exact hfresh.2.1
    · rfl
    · exact hfresh.2.2
    · rfl

/-- State with one pending link for the C5 witness. -/
def c5State : ScanState :=
  { initScan with links := [mkScanLink "http://a/b" (some "http://a/") false] }

/-- C5 witness: the theorem applied to concrete webs raising each of the
three transport failures. -/
theorem c5_witness :
    (∃ l ∈ (check_link (fun _ => .invalidSchema) 1 c5State "http://a/b").1.links,
      l.url = "http://a/b" ∧ l.invalid = true ∧ l.broken = false ∧ l.crawled = true ∧
      l.status_code = none ∧ l.error_text = some "Link was invalid") ∧
    (∃ l ∈ (check_link (fun _ => .connectionError) 1 c5State "http://a/b").1.links,
      l.url = "http://a/b" ∧ l.broken = true ∧ l.invalid = false ∧ l.crawled = true ∧
      l.status_code = none ∧
      l.error_text = some "There was an error connecting to this site") ∧
    (∃ l ∈ (check_link (fun _ => .requestError "ReadTimeout" "timed out") 1
        c5State "http://a/b").1.links,
      l.url = "http://a/b" ∧ l.broken = true ∧ l.invalid = false ∧ l.crawled = true ∧
      l.status_code = none ∧ l.error_text = some ("ReadTimeout" ++ ": " ++ "timed out")) :=
  ⟨(c5_transport_failures (fun _ => .invalidSchema) 0 c5State "http://a/b"
      (mkScanLink "http://a/b" (some "http://a/") false)
      (by decide) (by decide) (by decide)).1 rfl,
   (c5_transport_failures (fun _ => .connectionError) 0 c5State "http://a/b"
      (mkScanLink "http://a/b" (some "http://a/") false)
      (by decide) (by decide) (by decide)).2.1 rfl,
   (c5_transport_failures (fun _ => .requestError "ReadTimeout" "timed out") 0 c5State
      "http://a/b" (mkScanLink "http://a/b" (some "http://a/") false)
      (by decide) (by decide) (by decide)).2.2 "ReadTimeout" "timed out" rfl⟩

/-! Claim C3. -/

/-- C3: the finish timestamp is written at most once over a synchronous
scan; the dispatcher assigns it only at a point where no link of the scan
remains pending; once scan_finished is set, every check unit that
subsequently starts for a registered link of the scan returns without
fetching and without modifying any field of the link or the scan; and the
stop view never overwrites an existing finish timestamp. -/
theorem c3_finish_once (web : String → FetchResult) (U P pages : List String)
    (HwebU : ∀ urlX base ref, base ∈ P → ref ∈ refsOf (web urlX) →
      schemeOK (urljoin base ref) = true → urljoin base ref ∈ U)
    (Hpages : ∀ p ∈ pages, p ∈ P)
    (Hseeds : ∀ p ∈ pages, schemeOK (urljoin p p) = true → urljoin p p ∈ U)
    (fuel : Nat) (hfuel : U.length < fuel) :
    (∀ (web2 : String → FetchResult) (fuel2 : Nat) (s : ScanState) (url : String),
        registered s url = true → s.scan_finished = true →
        check_link web2 fuel2 s url = (s, false)) ∧
    (scan_pages web fuel initScan pages).1.finishWrites ≤ 1 ∧
    ((scan_pages web fuel initScan pages).1.scan_finished = true →
      (non_scanned_links (scan_pages web fuel initScan pages).1.links).isEmpty = true) ∧
    (∀ s2 : ScanState, s2.scan_finished = true → stop s2 = s2) ∧
    (∀ s2 : ScanState, s2.scan_finished = false →
      (scanFinishCheck s2).scan_finished = true →
      (non_scanned_links s2.links).isEmpty = true) := by
  obtain ⟨hnr, hinv, hdone⟩ := scan_pages_master web U P pages HwebU Hpages Hseeds fuel hfuel
  refine ⟨fun web2 fuel2 s url hreg hfin => check_link_finished web2 fuel2 s url hreg hfin,
    hinv.writesLe, ?_, ?_, ?_⟩
  · intro hf
    exact non_scanned_empty_iff.mpr (hinv.finishedCrawled hf)
  · intro s2 hf
    unfold stop
    simp [hf]
  · intro s2 hf hset
    by_cases hc : (non_scanned_links s2.links).isEmpty
    · exact hc
    · exfalso
      unfold scanFinishCheck at hset
      rw [if_neg hc] at hset
      rw [hf] at hset
      exact absurd hset (by simp)

/-- C3 witness: the theorem instantiated on the demonstration site. -/
theorem c3_witness :
    (scan_pages demoWeb 3 initScan demoPages).1.finishWrites ≤ 1 ∧
    ((scan_pages demoWeb 3 initScan demoPages).1.scan_finished = true →
      (non_scanned_links (scan_pages demoWeb 3 initScan demoPages).1.links).isEmpty = true) :=
  ⟨(c3_finish_once demoWeb demoU demoP demoPages demoWeb_closure demoPages_P demoSeeds_U 3
      (by decide)).2.1,
   (c3_finish_once demoWeb demoU demoP demoPages demoWeb_closure demoPages_P demoSeeds_U 3
      (by decide)).2.2.1⟩

/-! Claim C6. -/

/-- C6 counterexample: a scan whose seeding registers no link (here, an
empty seed page list) never runs a completion check, so the scan never
reaches finished=true — against the claim that every scan over a finite
graph reaches finished=true. -/
theorem c6_counterexample :
    scan_pages (fun _ => FetchResult.connectionError) 5 initScan [] = (initScan, false) ∧
    initScan.scan_finished = false :=
  ⟨rfl, rfl⟩

/-- C6 (amended): for every finite link graph reachable from the seed pages
(cycles permitted), provided at least one seed link is registered, a
synchronous scan performs only finitely many check units and reaches
finished=true with every registered link crawled; a previously registered
URL is never re-registered, so recursive dispatch creates work only for
newly created links, bounding total work by the number of distinct
resolvable URLs. -/
theorem c6_termination (web : String → FetchResult) (U P pages : List String)
    (HwebU : ∀ urlX base ref, base ∈ P → ref ∈ refsOf (web urlX) →
      schemeOK (urljoin base ref) = true → urljoin base ref ∈ U)
    (Hpages : ∀ p ∈ pages, p ∈ P)
    (Hseeds : ∀ p ∈ pages, schemeOK (urljoin p p) = true → urljoin p p ∈ U)
    (fuel : Nat) (hfuel : U.length < fuel)
    (hne : (seedPages initScan pages).2 ≠ []) :
    (scan_pages web fuel initScan pages).2 = false ∧
    (scan_pages web fuel initScan pages).1.scan_finished = true ∧
    ∀ l ∈ (scan_pages web fuel initScan pages).1.links, l.crawled = true := by
  obtain ⟨hnr, hinv, hdone⟩ := scan_pages_master web U P pages HwebU Hpages Hseeds fuel hfuel
  obtain ⟨hall, hfin⟩ := hdone hne
  exact ⟨hnr, hfin, hall⟩

/-- C6 witness: the demonstration scan terminates finished with both its
URLs crawled. -/
theorem c6_witness : (scan_pages demoWeb 3 initScan demoPages).1.scan_finished = true :=
  (c6_termination demoWeb demoU demoP demoPages demoWeb_closure demoPages_P demoSeeds_U 3
    (by decide) demoSeeds_ne).2.1

/-! Claim C7. -/

/-- State holding one already crawled link, used against claim C7. -/
def c7State : ScanState :=
  { initScan with links :=
      [{ mkScanLink "http://a/b" (some "http://a/") false with
          crawled := true, status_code := some 200 }] }

/-- C7 counterexample: check_link has no crawled guard — a unit executed for
an already crawled link of an unfinished scan fetches again (the fetch log
grows) and rewrites the outcome fields (the stored 200 becomes 404), against
the claim that such a unit performs no fetch and writes nothing. -/
theorem c7_counterexample :
    (check_link (fun _ => .response 404 []) 1 c7State "http://a/b").1.fetchLog
      = ["http://a/b"] ∧
    (check_link (fun _ => .response 404 []) 1 c7State "http://a/b").1.saveLog
      = ["http://a/b"] ∧
    ∃ l ∈ (check_link (fun _ => .response 404 []) 1 c7State "http://a/b").1.links,
      l.status_code = some 404 ∧ l.broken = true := by
  decide

/-- C7 (amended): the crawl itself dispatches each link at most once — over
a full synchronous scan, no outcome fields of any link are written more than
once (the ghost save log stays duplicate-free, and records only crawled
rows); check_link itself checks only the scan finished flag, so a unit
re-executed for an already crawled link of an unfinished scan re-fetches and
rewrites the outcome fields. -/
theorem c7_write_once (web : String → FetchResult) (U P pages : List String)
    (HwebU : ∀ urlX base ref, base ∈ P → ref ∈ refsOf (web urlX) →
      schemeOK (urljoin base ref) = true → urljoin base ref ∈ U)
    (Hpages : ∀ p ∈ pages, p ∈ P)
    (Hseeds : ∀ p ∈ pages, schemeOK (urljoin p p) = true → urljoin p p ∈ U)
    (fuel : Nat) (hfuel : U.length < fuel) :
    (scan_pages web fuel initScan pages).1.saveLog.Nodup ∧
    ∀ u ∈ (scan_pages web fuel initScan pages).1.saveLog,
      ∃ l ∈ (scan_pages web fuel initScan pages).1.links, l.url = u ∧ l.crawled = true := by
  obtain ⟨hnr, hinv, hdone⟩ := scan_pages_master web U P pages HwebU Hpages Hseeds fuel hfuel
  exact ⟨hinv.saveNodup, hinv.saveCrawled⟩

/-- C7 witness: the demonstration scan writes each of its two links once. -/
theorem c7_witness : (scan_pages demoWeb 3 initScan demoPages).1.saveLog.Nodup :=
  (c7_write_once demoWeb demoU demoP demoPages demoWeb_closure demoPages_P demoSeeds_U 3
    (by decide)).1

/-! Claim C8. -/

/-- C8: no ScanLink of a synchronous scan ever carries invalid=true and
broken=true at the same time; the working-links query excludes invalid rows
by construction, and the broken-links query, which filters on broken only,
contains only invalid=false rows whenever the exclusivity invariant holds —
in particular over the crawl results. -/
theorem c8_invalid_broken_exclusive (web : String → FetchResult) (U P pages : List String)
    (HwebU : ∀ urlX base ref, base ∈ P → ref ∈ refsOf (web urlX) →
      schemeOK (urljoin base ref) = true → urljoin base ref ∈ U)
    (Hpages : ∀ p ∈ pages, p ∈ P)
    (Hseeds : ∀ p ∈ pages, schemeOK (urljoin p p) = true → urljoin p p ∈ U)
    (fuel : Nat) (hfuel : U.length < fuel) :
    (∀ l ∈ (scan_pages web fuel initScan pages).1.links,
      ¬(l.invalid = true ∧ l.broken = true)) ∧
    (∀ (links : List ScanLink), ∀ l ∈ working_links links, l.invalid = false) ∧
    (∀ (links : List ScanLink), (∀ l ∈ links, ¬(l.invalid = true ∧ l.broken = true)) →
      ∀ l ∈ broken_links links, l.invalid = false) ∧
    (∀ l ∈ broken_links (scan_pages web fuel initScan pages).1.links, l.invalid = false) ∧
    (∀ l ∈ working_links (scan_pages web fuel initScan pages).1.links, l.invalid = false) := by
  obtain ⟨hnr, hinv, hdone⟩ := scan_pages_master web U P pages HwebU Hpages Hseeds fuel hfuel
  have hw : ∀ (links : List ScanLink), ∀ l ∈ working_links links, l.invalid = false := by
    intro links l hl
    simp only [working_links, validLinks, List.mem_filter] at hl
    have := hl.1.2
    simpa using this
  have hbr : ∀ (links : List ScanLink), (∀ l ∈ links, ¬(l.invalid = true ∧ l.broken = true)) →
      ∀ l ∈ broken_links links, l.invalid = false := by
    intro links hx l hl
    simp only [broken_links, List.mem_filter] at hl
    have hbrk : l.broken = true := hl.2
    cases hinv2 : l.invalid
    · rfl
    · exact absurd ⟨hinv2, hbrk⟩ (hx l hl.1)
  exact ⟨hinv.exclusive, hw, hbr, hbr _ hinv.exclusive, hw _⟩

/-- C8 witness: the demonstration scan satisfies the exclusivity invariant
and its broken query contains only valid rows. -/
theorem c8_witness :
    (∀ l ∈ (scan_pages demoWeb 3 initScan demoPages).1.links,
      ¬(l.invalid = true ∧ l.broken = true)) ∧
    (∀ l ∈ broken_links (scan_pages demoWeb 3 initScan demoPages).1.links,
      l.invalid = false) :=
  ⟨(c8_invalid_broken_exclusive demoWeb demoU demoP demoPages demoWeb_closure demoPages_P
      demoSeeds_U 3 (by decide)).1,
   (c8_invalid_broken_exclusive demoWeb demoU demoP demoPages demoWeb_closure demoPages_P
      demoSeeds_U 3 (by decide)).2.2.2.1⟩

/-! Claim C10. -/

/-- C10: every ScanLink created through Scan.add_link has an http or https
URL, and since the HTTP client raises scheme errors only for URLs of other
schemes, the invalid branch of the classifier is unreachable for
registry-created links: over a full synchronous scan no link ever has
invalid=true. -/
theorem c10_no_invalid (web : String → FetchResult) (pages : List String) (fuel : Nat)
    (Horacle : ∀ u, web u = .invalidSchema → schemeOK u = false) :
    (∀ (s : ScanState) (url base : String) (follow : Bool) (s2 : ScanState) (l : ScanLink),
        add_link s url (some base) follow = .ok (s2, some l) → schemeOK l.url = true) ∧
    (∀ l ∈ (scan_pages web fuel initScan pages).1.links, l.invalid = false) := by
  constructor
  · intro s url base follow s2 l hok
    rcases add_link_cases s url base follow with hcase | ⟨hcase, _, hscheme⟩
    · rw [hcase] at hok
      have hnone : (none : Option ScanLink) = some l :=
        congrArg Prod.snd (Except.ok.inj hok)
      exact absurd hnone (by simp)
    · rw [hcase] at hok
      have hl := Option.some.inj (congrArg Prod.snd (Except.ok.inj hok))
      rw [← hl]
      exact hscheme
  · have SR := seedPages_spec pages initScan
    have h0 : ∀ l ∈ (seedPages initScan pages).1.links,
        l.invalid = false ∧ schemeOK l.url = true := by
      intro l hl
      rw [SR.linksEq] at hl
      have hl2 : l ∈ (seedPages initScan pages).2 := by
        simpa [initScan] using hl
      exact ⟨(SR.fresh l hl2).2.1, SR.schemes l hl2⟩
    have heq : scan_pages web fuel initScan pages =
        ((seedPages initScan pages).2.map (fun l => l.url)).foldl (stepUnit web fuel)
          ((seedPages initScan pages).1, false) := rfl
    rw [heq]
    intro l hl
    exact (stepUnit_fold_inv10 web Horacle fuel _ _ h0 l hl).1

/-- C10 witness: the demonstration scan, whose client never raises a scheme
error on its http URLs, ends with no invalid link. -/
theorem c10_witness :
    (scan_pages demoWeb 3 initScan demoPages).1.links.all (fun l => !l.invalid) = true := by
  rw [List.all_eq_true]
  intro l hl
  have hinv := (c10_no_invalid demoWeb demoPages 3 demoHoracle).2 l hl
  simp [hinv]

end LinkChecker
